import Mathlib

/-!
Verification of the OpenAPI BFF spec-merge engine
(`src/tooling/src/brrtrouter_tooling/bff/merge.py` and
`src/tooling/src/brrtrouter_tooling/bff/_text.py`).

The Python code manipulates YAML documents loaded as nested dict/list/str
values.  We embed those documents as the mutual inductives `JVal` /
`JFields` / `JList`; Python dicts are unique-key, insertion-ordered field
sequences, exactly as CPython dicts behave.  Python string primitives used
by the merge (`split`, `strip`, `rstrip`, `startswith`, `capitalize`,
`replace`, substring containment, lexicographic sorting) are embedded at
character-list level with their CPython semantics.
-/

namespace BffMerge

mutual
/-- A YAML/JSON-like value as produced by `yaml.safe_load`: strings,
booleans, mappings (insertion-ordered, unique keys) and sequences. -/
inductive JVal where
  | s (v : String)
  | b (v : Bool)
  | obj (fields : JFields)
  | arr (items : JList)

/-- The fields of a mapping, in insertion order. -/
inductive JFields where
  | fnil
  | fcons (k : String) (v : JVal) (rest : JFields)

/-- The items of a sequence. -/
inductive JList where
  | lnil
  | lcons (v : JVal) (rest : JList)
end

/-- Build a mapping from a Lean list literal. -/
def JFields.ofList : List (String × JVal) → JFields
  | [] => .fnil
  | (k, v) :: rest => .fcons k v (JFields.ofList rest)

/-- Build a sequence from a Lean list literal. -/
def JList.ofList : List JVal → JList
  | [] => .lnil
  | v :: rest => .lcons v (JList.ofList rest)

/-- Python `d[k]` / `d.get(k)`: first (unique) binding of `k`. -/
def jlookup : JFields → String → Option JVal
  | .fnil, _ => none
  | .fcons k v rest, key => if k = key then some v else jlookup rest key

/-- Python `k in d`. -/
def jmem (l : JFields) (k : String) : Bool := (jlookup l k).isSome

/-- Python `d[k] = v`: update in place if the key exists (keeping its
position), else append at the end — CPython dict assignment semantics. -/
def jset : JFields → String → JVal → JFields
  | .fnil, key, v => .fcons key v .fnil
  | .fcons k w rest, key, v =>
      if k = key then .fcons k v rest else .fcons k w (jset rest key v)

/-- Python `list(d.keys())`. -/
def jkeys : JFields → List String
  | .fnil => []
  | .fcons k _ rest => k :: jkeys rest

/-- Left fold over a mapping's fields (Python `for k, v in d.items()`). -/
def jfoldl {α : Type} (f : α → String → JVal → α) : α → JFields → α
  | a, .fnil => a
  | a, .fcons k v rest => jfoldl f (f a k v) rest

/-- Navigation helper for stating theorems: walk an object path. -/
def jget : JVal → List String → Option JVal
  | v, [] => some v
  | .obj fs, k :: rest =>
      match jlookup fs k with
      | some w => jget w rest
      | none => none
  | _, _ :: _ => none

/-- Navigation helper: extract a string leaf at an object path. -/
def jgetStr (v : JVal) (path : List String) : Option String :=
  match jget v path with
  | some (.s r) => some r
  | _ => none

/-! ### Python string primitives (character-level embeddings) -/

/-- Python `s.startswith(p)` on character lists. -/
def startsWithL : List Char → List Char → Bool
  | _, [] => true
  | [], _ :: _ => false
  | c :: cs, p :: ps => c = p && startsWithL cs ps

/-- Python `s.startswith(p)`. -/
def pyStartsWith (s p : String) : Bool := startsWithL s.data p.data

/-- Python substring containment `p in s` (contiguous occurrence). -/
def containsSubL (p : List Char) : List Char → Bool
  | [] => startsWithL [] p
  | c :: cs => startsWithL (c :: cs) p || containsSubL p cs

/-- Python `p in s` for strings. -/
def pyContainsSub (s p : String) : Bool := containsSubL p.data s.data

/-- Python `s.split(sep)` (non-empty `sep`), fuelled scanner. -/
def splitGo (fuel : Nat) (sep : List Char) (s : List Char) (acc : List Char) :
    List (List Char) :=
  match fuel with
  | 0 => [acc.reverse]
  | fuel + 1 =>
    match s with
    | [] => [acc.reverse]
    | c :: cs =>
      if startsWithL (c :: cs) sep then
        acc.reverse :: splitGo fuel sep (List.drop sep.length (c :: cs)) []
      else
        splitGo fuel sep cs (c :: acc)

/-- Python `s.split(sep)`; the merge only calls it with non-empty `sep`
(`"-"` and `"#/components/schemas/"`). -/
def pySplit (s sep : String) : List String :=
  if sep.data.isEmpty then [s]
  else (splitGo (s.data.length + 1) sep.data s.data []).map List.asString

/-- Python `s.replace(old, new)` (non-overlapping, left to right), fuelled. -/
def replaceGo (fuel : Nat) (old new : List Char) (s : List Char) : List Char :=
  match fuel with
  | 0 => s
  | fuel + 1 =>
    match s with
    | [] => []
    | c :: cs =>
      if startsWithL (c :: cs) old then
        new ++ replaceGo fuel old new (List.drop old.length (c :: cs))
      else
        c :: replaceGo fuel old new cs

/-- Python `s.replace(old, new)`; the merge only reaches it with non-empty
`old` (a schema name taken from a ref tail with a hit in the name mapping). -/
def pyReplace (s old new : String) : String :=
  if old.data.isEmpty then s
  else (replaceGo (s.data.length + 1) old.data new.data s.data).asString

/-- Python `s.rstrip("/")`. -/
def pyRstripSlash (s : String) : String :=
  ((s.data.reverse.dropWhile (· = '/')).reverse).asString

/-- Python `s.strip("/")`. -/
def pyStripSlash (s : String) : String :=
  ((((s.data.dropWhile (· = '/')).reverse).dropWhile (· = '/')).reverse).asString

/-- Python `s.capitalize()`: first character upper-cased, rest lower-cased. -/
def pyCapitalize (s : String) : String :=
  match s.data with
  | [] => ""
  | c :: cs => (c.toUpper :: cs.map Char.toLower).asString

/-- Python `s1 < s2`: lexicographic comparison by character code points. -/
def pyLtL : List Char → List Char → Bool
  | [], [] => false
  | [], _ :: _ => true
  | _ :: _, [] => false
  | a :: as_, b :: bs => if a = b then pyLtL as_ bs else decide (a < b)

/-- Python `s1 < s2` on strings. -/
def pyLt (a b : String) : Bool := pyLtL a.data b.data

/-- Insert into a `pyLt`-ascending list (helper of `pySorted`). -/
def insertSorted (x : String) : List String → List String
  | [] => [x]
  | y :: ys => if pyLt y x then y :: insertSorted x ys else x :: y :: ys

/-- Python `sorted(list_of_strings)` (codepoint-lexicographic ascending). -/
def pySorted : List String → List String
  | [] => []
  | x :: xs => insertSorted x (pySorted xs)

/-- Insert a field into a key-ascending mapping (helper of
`pySortedFields`). -/
def insertSortedFields (k : String) (v : JVal) : JFields → JFields
  | .fnil => .fcons k v .fnil
  | .fcons k' v' rest =>
      if pyLt k' k then .fcons k' v' (insertSortedFields k v rest)
      else .fcons k v (.fcons k' v' rest)

/-- Python `dict(sorted(d.items()))` (unique keys, so ordering by key alone
agrees with tuple comparison). -/
def pySortedFields : JFields → JFields
  | .fnil => .fnil
  | .fcons k v rest => insertSortedFields k v (pySortedFields rest)

/-! ### `_text.py` -/

/-- `_to_pascal_case` from `bff/_text.py`:
`"".join(word.capitalize() for word in name.split("-"))`. -/
def to_pascal_case (name : String) : String :=
  String.join ((pySplit name "-").map pyCapitalize)

/-! ### `bff/merge.py`: `_update_refs_in_value`

The source first rewrites `val["$ref"]` when it equals
`#/components/schemas/{old_name}` and then recurses into every value; on
unique-key dicts this equals the per-field form used here (recursing into
the rewritten `$ref` string is the identity). -/

mutual
/-- `_update_refs_in_value(val, old_name, new_name)` (in-place mutation
modelled as returning the updated value). -/
def updRefsV (old new : String) : JVal → JVal
  | .s v => .s v
  | .b v => .b v
  | .obj fs => .obj (updRefsF old new fs)
  | .arr xs => .arr (updRefsL old new xs)

/-- `_update_refs_in_value` over a mapping's fields. -/
def updRefsF (old new : String) : JFields → JFields
  | .fnil => .fnil
  | .fcons k v rest =>
      match v with
      | .s r =>
          .fcons k
            (.s (if k = "$ref" && r = "#/components/schemas/" ++ old then
                  "#/components/schemas/" ++ new
                else r))
            (updRefsF old new rest)
      | w => .fcons k (updRefsV old new w) (updRefsF old new rest)

/-- `_update_refs_in_value` over a sequence's items. -/
def updRefsL (old new : String) : JList → JList
  | .lnil => .lnil
  | .lcons v rest => .lcons (updRefsV old new v) (updRefsL old new rest)
end

/-- The HTTP method tokens recognized by the merge. -/
def httpMethods : List String :=
  ["get", "post", "put", "patch", "delete", "options", "head", "trace"]

/-- `_merge_schemas(all_schemas, service_name, schemas)`: insert each schema
under its PascalCase-prefixed name (`dict(...)` shallow copy has no
value-level effect), rewriting refs to the schema's own name inside its
body. -/
def merge_schemas (all_schemas : JFields) (service_name : String)
    (schemas : JFields) : JFields :=
  jfoldl
    (fun acc schema_name schema_def =>
      let prefixed := to_pascal_case service_name ++ schema_name
      match schema_def with
      | .obj fs => jset acc prefixed (updRefsV schema_name prefixed (.obj fs))
      | w => jset acc prefixed w)
    all_schemas schemas

/-- `_update_refs_in_paths`, innermost part: rewrite refs inside one
operation's `requestBody` and each response's `content`. -/
def updRefsInOp (old new : String) (op : JFields) : JFields :=
  let op :=
    match jlookup op "requestBody" with
    | some rb => jset op "requestBody" (updRefsV old new rb)
    | none => op
  match jlookup op "responses" with
  | some (.obj rs) => jset op "responses" (.obj (updRefsInResponses old new rs))
  | _ => op
where
  /-- `for r in op["responses"].values(): if isinstance(r, dict) and
  "content" in r: _update_refs_in_value(r["content"], ...)`. -/
  updRefsInResponses (old new : String) : JFields → JFields
    | .fnil => .fnil
    | .fcons rk rv rest =>
        let rv' :=
          match rv with
          | .obj rfs =>
              match jlookup rfs "content" with
              | some content =>
                  JVal.obj (jset rfs "content" (updRefsV old new content))
              | none => .obj rfs
          | w => w
        .fcons rk rv' (updRefsInResponses old new rest)

/-- `_update_refs_in_paths`, per path item: visit each HTTP-method
operation that is a mapping. -/
def updRefsInMethods (old new : String) : JFields → JFields
  | .fnil => .fnil
  | .fcons method v rest =>
      let v' :=
        match v with
        | .obj op =>
            if method ∈ httpMethods then JVal.obj (updRefsInOp old new op)
            else .obj op
        | w => w
      .fcons method v' (updRefsInMethods old new rest)

/-- `_update_refs_in_paths(paths, old_name, new_name)`. -/
def update_refs_in_paths (paths : JFields) (old new : String) : JFields :=
  go paths
where
  go : JFields → JFields
    | .fnil => .fnil
    | .fcons p pd rest =>
        let pd' :=
          match pd with
          | .obj pdf => JVal.obj (updRefsInMethods old new pdf)
          | w => w
        .fcons p pd' (go rest)

/-- `_downstream_path(base_path, bff_path)`. -/
def downstream_path (base_path bff_path : String) : String :=
  let base := pyRstripSlash base_path
  let path := pyStripSlash bff_path
  if path ≠ "" then base ++ "/" ++ path else base

/-- The three extension fields `_merge_one_sub_service` attaches to a
copied operation (`op["x-service"]`, `op["x-service-base-path"]`,
`op["x-brrtrouter-downstream-path"]`). -/
def annotateOp (sname base_path path : String) (op : JFields) : JFields :=
  jset (jset (jset op "x-service" (.s sname))
      "x-service-base-path" (.s base_path))
    "x-brrtrouter-downstream-path" (.s (downstream_path base_path path))

/-- The per-path-item loop of `_merge_one_sub_service`: copy the path item
and replace each HTTP-method operation that is a mapping by its annotated
copy. -/
def annotateMethods (sname base_path path : String) : JFields → JFields
  | .fnil => .fnil
  | .fcons method v rest =>
      let v' :=
        match v with
        | .obj op =>
            if method ∈ httpMethods then JVal.obj (annotateOp sname base_path path op)
            else .obj op
        | w => w
      .fcons method v' (annotateMethods sname base_path path rest)

/-- The mutable state threaded through `_merge_one_sub_service`:
`all_schemas`, `all_tags` (a set, modelled as a dedup-insert list; it is
only read back through `sorted`), `all_paths`, `merged_params`. -/
structure MergeState where
  all_schemas : JFields
  all_tags : List String
  all_paths : JFields
  merged_params : JFields

/-- Python `set.add` for the tag set. -/
def addTag (tags : List String) (t : String) : List String :=
  if t ∈ tags then tags else tags ++ [t]

/-- Tag-name extraction `t.get("name", str(t)) if isinstance(t, dict) else
str(t)`; the `str(...)` fallback renderings of non-string nodes are not
modelled (no claim touches them) and are embedded as `""`. -/
def tagName : JVal → String
  | .obj fs =>
      match jlookup fs "name" with
      | some (.s s) => s
      | _ => ""
  | .s s => s
  | _ => ""

/-- `for t in spec["tags"]: all_tags.add(...)`. -/
def collectTags (tags : List String) : JList → List String
  | .lnil => tags
  | .lcons t rest => collectTags (addTag tags (tagName t)) rest

/-- The filesystem visible to the merge: spec path → parsed YAML mapping.
`spec_path.exists()` is `lookup ≠ none` and `_load_spec` is the lookup. -/
abbrev SpecFs := List (String × JFields)

/-- `_load_spec` / `spec_path.exists()` combined: the parsed document, if
the file exists. -/
def flookup : SpecFs → String → Option JFields
  | [], _ => none
  | (p, d) :: rest, path => if p = path then some d else flookup rest path

/-- The `if "tags" in spec:` block of `_merge_one_sub_service`. -/
def tagsStep (spec : JFields) (st : MergeState) : MergeState :=
  match jlookup spec "tags" with
  | some (.arr ts) => { st with all_tags := collectTags st.all_tags ts }
  | _ => st

/-- The `if "paths" in spec:` block of `_merge_one_sub_service`: each path
item that is a mapping is copied, its method operations annotated, and
assigned into `all_paths` (overwriting any previous binding of the same
path wholesale). -/
def pathsStep (sname base_path : String) (spec : JFields) (st : MergeState) :
    MergeState :=
  match jlookup spec "paths" with
  | some (.obj pfs) =>
      let ap :=
        jfoldl
          (fun ap path path_def =>
            match path_def with
            | .obj pdf =>
                jset ap path (.obj (annotateMethods sname base_path path pdf))
            | _ => ap)
          st.all_paths pfs
      { st with all_paths := ap }
  | _ => st

/-- The `if "components" in spec and "schemas" in spec["components"]:`
block of `_merge_one_sub_service`: merge the schemas, then rewrite each
schema's unprefixed refs inside all accumulated paths. -/
def schemasStep (sname : String) (spec : JFields) (st : MergeState) :
    MergeState :=
  match jlookup spec "components" with
  | some (.obj comps) =>
      match jlookup comps "schemas" with
      | some (.obj schemas) =>
          let st := { st with all_schemas := merge_schemas st.all_schemas sname schemas }
          let ap :=
            jfoldl
              (fun ap schema_name _ =>
                update_refs_in_paths ap schema_name
                  (to_pascal_case sname ++ schema_name))
              st.all_paths schemas
          { st with all_paths := ap }
      | _ => st
  | _ => st

/-- The `if "components" in spec and "parameters" in ...:` block of
`_merge_one_sub_service`: first-seen-wins parameter union. -/
def paramsStep (spec : JFields) (st : MergeState) : MergeState :=
  match jlookup spec "components" with
  | some (.obj comps) =>
      match jlookup comps "parameters" with
      | some (.obj params) =>
          let mp :=
            jfoldl
              (fun mp pn pd => if jmem mp pn then mp else jset mp pn pd)
              st.merged_params params
          { st with merged_params := mp }
      | _ => st
  | _ => st

/-- `_merge_one_sub_service(sname, base_path, spec_path, ...)`: skip when
the spec file does not exist, else run the four blocks in source order. -/
def merge_one_sub_service (sname base_path spec_path : String) (fs : SpecFs)
    (st : MergeState) : MergeState :=
  match flookup fs spec_path with
  | none => st
  | some spec =>
      paramsStep spec (schemasStep sname spec (pathsStep sname base_path spec (tagsStep spec st)))

/-- Append `v` to `mapping[k]`, creating the entry if needed (Python dict
of lists). -/
def mapAppend (mapping : List (String × List String)) (k v : String) :
    List (String × List String) :=
  match mapping with
  | [] => [(k, [v])]
  | (k', vs) :: rest =>
      if k' = k then (k', vs ++ [v]) :: rest else (k', vs) :: mapAppend rest k v

/-- Lookup in the unprefixed-name mapping. -/
def mlookup : List (String × List String) → String → Option (List String)
  | [], _ => none
  | (k, vs) :: rest, key => if k = key then some vs else mlookup rest key

/-- The sub-service configuration record: the `base_path` and `spec_path`
entries of the per-service dict (`cfg.get(...)`). -/
structure SvcCfg where
  base_path : Option String
  spec_path : Option String
  deriving DecidableEq

/-- The `sub_services` dict: name → config, insertion-ordered. -/
abbrev SubServices := List (String × SvcCfg)

/-- `_schema_name_mapping(all_schemas, sub_services)`: reverse lookup from
unprefixed schema names to their prefixed candidates, iterating schema keys
and service names in sorted order. -/
def schema_name_mapping (all_schemas : JFields) (sub_services : SubServices) :
    List (String × List String) :=
  (pySorted (jkeys all_schemas)).foldl
    (fun mapping prefixed =>
      (pySorted (sub_services.map (·.1))).foldl
        (fun mapping sname =>
          let pfx := to_pascal_case sname
          if pyStartsWith prefixed pfx then
            mapAppend mapping ((prefixed.data.drop pfx.data.length).asString) prefixed
          else mapping)
        mapping)
    []

/-- `_service_prefix_for_schema(prefixed_key, sub_services)`: first service
(in the dict's insertion order, NOT sorted) whose PascalCase prefix the key
starts with. -/
def service_prefix_for_schema (prefixed_key : String)
    (sub_services : SubServices) : Option String :=
  sub_services.findSome? fun kv =>
    let pfx := to_pascal_case kv.1
    if pyStartsWith prefixed_key pfx then some pfx else none

/-- The `$ref`-string rewrite performed by `_update_all_refs_in_value`:
split off the part after `#/components/schemas/`, look it up in the
mapping, filter candidates by the owning service prefix when one is given,
and rewrite to the first candidate present in `all_schemas` (of which only
the keys are consulted by `p in all_schemas`). -/
def rewriteRefStr (mapping : List (String × List String))
    (schemaKeys : List String) (pfx : Option String) (r : String) : String :=
  if pyContainsSub r "#/components/schemas/" then
    let unprefixed := (pySplit r "#/components/schemas/").getLastD ""
    match mlookup mapping unprefixed with
    | some cands =>
        let cands :=
          match pfx with
          | some p => cands.filter (fun c => pyStartsWith c p)
          | none => cands
        match cands.find? (fun p => schemaKeys.contains p) with
        | some p => pyReplace r unprefixed p
        | none => r
    | none => r
  else r

mutual
/-- `_update_all_refs_in_value(val, mapping, all_schemas, service_prefix)`
(same per-field reformulation as `_update_refs_in_value`). -/
def updAllV (mapping : List (String × List String)) (schemaKeys : List String)
    (pfx : Option String) : JVal → JVal
  | .s v => .s v
  | .b v => .b v
  | .obj fs => .obj (updAllF mapping schemaKeys pfx fs)
  | .arr xs => .arr (updAllL mapping schemaKeys pfx xs)

/-- `_update_all_refs_in_value` over a mapping's fields. -/
def updAllF (mapping : List (String × List String)) (schemaKeys : List String)
    (pfx : Option String) : JFields → JFields
  | .fnil => .fnil
  | .fcons k v rest =>
      match v with
      | .s r =>
          .fcons k
            (.s (if k = "$ref" then rewriteRefStr mapping schemaKeys pfx r else r))
            (updAllF mapping schemaKeys pfx rest)
      | w => .fcons k (updAllV mapping schemaKeys pfx w) (updAllF mapping schemaKeys pfx rest)

/-- `_update_all_refs_in_value` over a sequence's items. -/
def updAllL (mapping : List (String × List String)) (schemaKeys : List String)
    (pfx : Option String) : JList → JList
  | .lnil => .lnil
  | .lcons v rest =>
      .lcons (updAllV mapping schemaKeys pfx v) (updAllL mapping schemaKeys pfx rest)
end

/-- The `Error` schema synthesized by `_add_error_schema` when no schema
named `Error` exists after the merge. -/
def defaultErrorSchema : JVal :=
  .obj (.ofList
    [("type", .s "object"),
     ("required", .arr (.ofList [.s "error", .s "message"])),
     ("properties", .obj (.ofList
       [("error", .obj (.ofList
          [("type", .s "string"), ("description", .s "Error code")])),
        ("message", .obj (.ofList
          [("type", .s "string"),
           ("description", .s "Human-readable error message")])),
        ("details", .obj (.ofList
          [("type", .s "object"), ("nullable", .b true),
           ("description", .s "Additional details"),
           ("additionalProperties", .b true)]))]))])

/-- The `for sname in sorted(...)` loop of `_add_error_schema`: alias
`Error` to the first sorted service's prefixed `Error` schema, if any, and
stop (`break`). -/
def aliasErrorLoop (all_schemas all_paths : JFields) :
    List String → JFields × JFields
  | [] => (all_schemas, all_paths)
  | sname :: rest =>
      let pe := to_pascal_case sname ++ "Error"
      if jmem all_schemas pe then
        (jset all_schemas "Error"
           (.obj (.fcons "$ref" (.s ("#/components/schemas/" ++ pe)) .fnil)),
         update_refs_in_paths all_paths "Error" pe)
      else aliasErrorLoop all_schemas all_paths rest

/-- `_add_error_schema(all_schemas, all_paths, sub_services)`.  Note the
source performs `_update_refs_in_paths` BEFORE reassigning
`all_schemas["Error"]`; both are returned here. -/
def add_error_schema (all_schemas all_paths : JFields)
    (sub_services : SubServices) : JFields × JFields :=
  let all_schemas :=
    if jmem all_schemas "Error" then all_schemas
    else jset all_schemas "Error" defaultErrorSchema
  aliasErrorLoop all_schemas all_paths (pySorted (sub_services.map (·.1)))

/-- Insert a (name, cfg) pair into a name-ascending list (helper of
`sortedSubServices`). -/
def insertSortedSvc (x : String × SvcCfg) : SubServices → SubServices
  | [] => [x]
  | y :: ys => if pyLt y.1 x.1 then y :: insertSortedSvc x ys else x :: y :: ys

/-- Python `sorted(sub_services.items())` (unique names, so comparison by
name agrees with tuple comparison). -/
def sortedSubServices : SubServices → SubServices
  | [] => []
  | x :: xs => insertSortedSvc x (sortedSubServices xs)

/-- The body of the `for sname, cfg in sorted(sub_services.items()):` loop
of `merge_sub_service_specs`: compute the base path default, skip when the
config carries no (truthy) `spec_path`, else merge the one sub-service. -/
def mergeServiceStep (fs : SpecFs) (st : MergeState) (kv : String × SvcCfg) :
    MergeState :=
  let base_path := kv.2.base_path.getD ("/api/" ++ kv.1)
  match kv.2.spec_path with
  | some p => merge_one_sub_service kv.1 base_path p fs st
  | none => st

/-- The second, global `$ref`-resolution pass of `merge_sub_service_specs`:
`for prefixed_key, schema_def in all_schemas.items(): if isinstance(...):
_update_all_refs_in_value(schema_def, mapping, all_schemas, prefix)`. -/
def globalRefPass (mapping : List (String × List String))
    (schemaKeys : List String) (sub_services : SubServices) : JFields → JFields
  | .fnil => .fnil
  | .fcons k v rest =>
      let v' :=
        match v with
        | .obj fsv =>
            JVal.obj (updAllF mapping schemaKeys
              (service_prefix_for_schema k sub_services) fsv)
        | w => w
      .fcons k v' (globalRefPass mapping schemaKeys sub_services rest)

/-- `merge_sub_service_specs(sub_services, info)`: the complete merge.  The
parameter `fs` stands for the filesystem read by `_load_spec`; wrapping a
string `spec_path` in `Path(...)` is the identity here, and the
`if spec_path:` truthiness test skips a service whose config has no
`spec_path`. -/
def merge_sub_service_specs (sub_services : SubServices)
    (info : Option JFields) (fs : SpecFs) : JVal :=
  let baseInfo : JFields := .ofList
    [("title", .s "BFF API"),
     ("description", .s "Backend for Frontend API (generated). Do not edit manually."),
     ("version", .s "1.0.0")]
  let infoF :=
    match info with
    | some i => jfoldl (fun acc k v => jset acc k v) baseInfo i
    | none => baseInfo
  let st0 : MergeState := ⟨.fnil, [], .fnil, .fnil⟩
  let st := (sortedSubServices sub_services).foldl (mergeServiceStep fs) st0
  let mapping := schema_name_mapping st.all_schemas sub_services
  let schemaKeys := jkeys st.all_schemas
  let all_schemas := globalRefPass mapping schemaKeys sub_services st.all_schemas
  let ep := add_error_schema all_schemas st.all_paths sub_services
  .obj (.ofList
    [("openapi", .s "3.1.0"),
     ("info", .obj infoF),
     ("servers", .arr (.ofList [.obj (.ofList [("url", .s "/"), ("description", .s "BFF")])])),
     ("tags", .arr (.ofList ((pySorted st.all_tags).map fun t =>
        JVal.obj (.fcons "name" (.s t) .fnil)))),
     ("paths", .obj (pySortedFields ep.2)),
     ("components", .obj (.ofList
       [("parameters", .obj st.merged_params),
        ("schemas", .obj (pySortedFields ep.1))]))])

/-! ### Heap model of `_merge_schemas` / `_update_refs_in_value` (frame claim)

The value-level embedding above cannot express Python's in-place mutation
of shared objects, so the frame claim about input documents is settled
against an explicit object heap: nodes live in a store addressed by `Nat`;
dict entries hold either immutable strings or pointers; `dict(schema_def)`
allocates a fresh top-level node sharing the child pointers of the
original; `_update_refs_in_value` follows pointers and overwrites `$ref`
entries in place.  Traversal fuel is bounded by the store size, which
covers every acyclic heap (the only heaps `yaml.safe_load` without aliases
produces, and on cyclic ones the Python recursion would not terminate). -/

/-- A dict/list entry on the heap: an immutable string or a pointer. -/
inductive HVal where
  | s (v : String)
  | addr (a : Nat)
  deriving DecidableEq

/-- A heap node: a dict (insertion-ordered fields) or a list. -/
inductive HNode where
  | obj (fields : List (String × HVal))
  | arr (items : List HVal)
  deriving DecidableEq

/-- The object heap: address → node. -/
abbrev Store := List (Nat × HNode)

/-- Read a field of a heap dict. -/
def hflookup : List (String × HVal) → String → Option HVal
  | [], _ => none
  | (k, v) :: rest, key => if k = key then some v else hflookup rest key

/-- Assign a field of a heap dict (update in place, else append). -/
def hfset : List (String × HVal) → String → HVal → List (String × HVal)
  | [], key, v => [(key, v)]
  | (k, w) :: rest, key, v =>
      if k = key then (k, v) :: rest else (k, w) :: hfset rest key v

/-- Dereference an address. -/
def hlookup : Store → Nat → Option HNode
  | [], _ => none
  | (a, nd) :: rest, addr => if a = addr then some nd else hlookup rest addr

/-- Overwrite the node at an address. -/
def hset : Store → Nat → HNode → Store
  | [], addr, nd => [(addr, nd)]
  | (a, w) :: rest, addr, nd =>
      if a = addr then (a, nd) :: rest else (a, w) :: hset rest addr nd

/-- An address unused by the store (one past the largest bound address). -/
def freshAddr : Store → Nat
  | [] => 0
  | (a, _) :: rest => max (a + 1) (freshAddr rest)

/-- The pointer values among a dict node's fields. -/
def fieldPtrs : List (String × HVal) → List Nat
  | [] => []
  | (_, .addr a) :: rest => a :: fieldPtrs rest
  | (_, _) :: rest => fieldPtrs rest

/-- The pointer values among a list node's items. -/
def itemPtrs : List HVal → List Nat
  | [] => []
  | .addr a :: rest => a :: itemPtrs rest
  | _ :: rest => itemPtrs rest

/-- The pointer values of a node. -/
def nodePtrs : HNode → List Nat
  | .obj fs => fieldPtrs fs
  | .arr xs => itemPtrs xs

/-- The pointers leaving the node at an address (none if unbound). -/
def ptrsOf (st : Store) (a : Nat) : List Nat :=
  match hlookup st a with
  | some nd => nodePtrs nd
  | none => []

/-- `_update_refs_in_value(val, old_name, new_name)` on the heap: rewrite
the node's own `$ref` (when it is the old target string), store the node
back, then recurse depth-first through every pointer value, mutating the
store as Python mutates the shared objects. -/
def updRefsH : Nat → String → String → Nat → Store → Store
  | 0, _, _, _, st => st
  | fuel + 1, old, new, a, st =>
    match hlookup st a with
    | some (.obj fs) =>
        let fs' :=
          match hflookup fs "$ref" with
          | some (.s r) =>
              if r = "#/components/schemas/" ++ old then
                hfset fs "$ref" (.s ("#/components/schemas/" ++ new))
              else fs
          | _ => fs
        (fs'.map (·.2)).foldl
          (fun st v =>
            match v with
            | .addr a' => updRefsH fuel old new a' st
            | _ => st)
          (hset st a (.obj fs'))
    | some (.arr xs) =>
        xs.foldl
          (fun st v =>
            match v with
            | .addr a' => updRefsH fuel old new a' st
            | _ => st)
          st
    | none => st

/-- `_merge_schemas(all_schemas, service_name, schemas)` on the heap: for
each schema, `dict(schema_def)` allocates a fresh top-level node sharing
the child values, the prefixed key is assigned in `all_schemas`, and
`_update_refs_in_value` then rewrites own-name refs through the copy —
reaching the original's shared children. -/
def merge_schemasH (sname : String) :
    List (String × HVal) → List (String × HVal) → Store →
      List (String × HVal) × Store
  | all_schemas, [], st => (all_schemas, st)
  | all_schemas, (schema_name, sv) :: rest, st =>
      let prefixed := to_pascal_case sname ++ schema_name
      match sv with
      | .addr a =>
          match hlookup st a with
          | some (.obj fs) =>
              let a' := freshAddr st
              let st := (a', HNode.obj fs) :: st
              let st := updRefsH (st.length + 1) schema_name prefixed a' st
              merge_schemasH sname (hfset all_schemas prefixed (.addr a')) rest st
          | _ => merge_schemasH sname (hfset all_schemas prefixed sv) rest st
      | _ => merge_schemasH sname (hfset all_schemas prefixed sv) rest st

/-- The three extension-field assignments `_merge_one_sub_service` performs
on a freshly copied operation dict (`op["x-service"] = ...` etc.); since
the copy is unshared when they run, mutating it key by key equals
allocating it with the updated fields. -/
def annotateOpH (sname base_path path : String)
    (ofs : List (String × HVal)) : List (String × HVal) :=
  hfset (hfset (hfset ofs "x-service" (.s sname))
      "x-service-base-path" (.s base_path))
    "x-brrtrouter-downstream-path" (.s (downstream_path base_path path))

/-- The inner method loop of the paths block on the heap, iterating the
copied path item's fields (address `c`): each HTTP-method operation that
is a dict is copied (`op = dict(op)`) into a fresh node, annotated, and
assigned back into the copy (`path_def[method] = op`); non-method keys and
non-dict operations are left alone (`continue`). -/
def mergeMethodsH (sname base_path path : String) (c : Nat) :
    List (String × HVal) → Store → Store
  | [], st => st
  | (method, v) :: rest, st =>
      if method ∈ httpMethods then
        match v with
        | .addr o =>
            match hlookup st o with
            | some (.obj ofs) =>
                let oc := freshAddr st
                let st := (oc, HNode.obj (annotateOpH sname base_path path ofs)) :: st
                let st :=
                  match hlookup st c with
                  | some (.obj cfs) => hset st c (.obj (hfset cfs method (.addr oc)))
                  | _ => st
                mergeMethodsH sname base_path path c rest st
            | _ => mergeMethodsH sname base_path path c rest st
        | _ => mergeMethodsH sname base_path path c rest st
      else mergeMethodsH sname base_path path c rest st

/-- The paths block of `_merge_one_sub_service` on the heap: for each path
item that is a dict, `path_def = dict(path_def)` allocates a fresh
top-level copy sharing the loaded item's values, the method loop runs on
the copy, and the copy's address is what `all_paths[path]` receives (the
returned association list).  Non-dict path items are skipped. -/
def mergePathsH (sname base_path : String) :
    List (String × HVal) → Store → List (String × HVal) × Store
  | [], st => ([], st)
  | (path, v) :: rest, st =>
      match v with
      | .addr p =>
          match hlookup st p with
          | some (.obj pfs) =>
              let c := freshAddr st
              let st := (c, HNode.obj pfs) :: st
              let st := mergeMethodsH sname base_path path c pfs st
              let pr := mergePathsH sname base_path rest st
              ((path, HVal.addr c) :: pr.1, pr.2)
          | _ => mergePathsH sname base_path rest st
      | _ => mergePathsH sname base_path rest st

/-- The loaded `alpha` document's `User` schema on the heap: node 0 is the
schema body `{type: object, properties: <node 1>}`, node 1 is
`{next: <node 2>}`, node 2 is `{$ref: "#/components/schemas/User"}` — a
self-referential schema as loaded by `yaml.safe_load`. -/
def loadedUserStore : Store :=
  [(0, .obj [("type", .s "object"), ("properties", .addr 1)]),
   (1, .obj [("next", .addr 2)]),
   (2, .obj [("$ref", .s "#/components/schemas/User")])]

/-- A loaded paths table on the heap: node 0 is the path item
`{get: <node 1>}` for `/items`, node 1 is the operation
`{operationId: listItems}`. -/
def opsStore : Store :=
  [(0, .obj [("get", .addr 1)]),
   (1, .obj [("operationId", .s "listItems")])]

/-! ### Concrete input fixtures

These mirror the repository's own test fixtures in
`src/tooling/tests/test_bff.py` (`TestMergePathsPerMethod`,
`TestMergeMultipleErrorSchemas`, `TestMergeSameSchemaNameAcrossServices`,
`TestMergeOverlappingPrefixes`). -/

/-- A single-operation document: `paths: /items: <method>: ...`. -/
def itemsDoc (method opId code desc : String) : JFields :=
  .ofList [("openapi", .s "3.1.0"),
    ("info", .obj (.ofList [("title", .s "T"), ("version", .s "1.0")])),
    ("paths", .obj (.ofList [("/items", .obj (.ofList
      [(method, .obj (.ofList [("operationId", .s opId),
         ("responses", .obj (.ofList [(code, .obj (.ofList
           [("description", .s desc)]))]))]))]))]))]

/-- Sub-services `alpha` and `beta` (insertion order alpha, beta). -/
def svcAlphaBeta : SubServices :=
  [("alpha", ⟨some "/api/alpha", some "a.yaml"⟩),
   ("beta", ⟨some "/api/beta", some "b.yaml"⟩)]

/-- alpha has `GET /items`, beta has `POST /items`. -/
def fsItemsDiff : SpecFs :=
  [("a.yaml", itemsDoc "get" "listItems" "200" "OK"),
   ("b.yaml", itemsDoc "post" "createItem" "201" "Created")]

/-- Both alpha and beta define `GET /items`. -/
def fsItemsSame : SpecFs :=
  [("a.yaml", itemsDoc "get" "listA" "200" "OK"),
   ("b.yaml", itemsDoc "get" "listB" "200" "OK")]

/-- The body of a service-local `Error` schema. -/
def errorSchemaBody : JVal :=
  .obj (.ofList [("type", .s "object"),
    ("properties", .obj (.ofList [("code", .obj (.ofList
      [("type", .s "string")]))]))])

/-- A `components.schemas` map holding only a schema named `Error`. -/
def errorSchemasMap : JFields := .ofList [("Error", errorSchemaBody)]

/-- A `components` map holding `errorSchemasMap`. -/
def errorCompsMap : JFields := .ofList [("schemas", .obj errorSchemasMap)]

/-- A document whose components define a schema literally named `Error`. -/
def errorSchemaDoc : JFields :=
  .ofList [("openapi", .s "3.1.0"),
    ("info", .obj (.ofList [("title", .s "T"), ("version", .s "1.0")])),
    ("paths", .obj .fnil),
    ("components", .obj errorCompsMap)]

/-- Sub-services `auth` and `idam`, each defining its own `Error`. -/
def svcAuthIdam : SubServices :=
  [("auth", ⟨some "/api/auth", some "auth.yaml"⟩),
   ("idam", ⟨some "/api/idam", some "idam.yaml"⟩)]

/-- Both services' documents define an `Error` schema. -/
def fsError : SpecFs :=
  [("auth.yaml", errorSchemaDoc), ("idam.yaml", errorSchemaDoc)]

/-- A document defining `Address` (one string property) and `User` whose
`address` property references `Address`. -/
def userAddrDoc (fieldName : String) : JFields :=
  .ofList [("openapi", .s "3.1.0"),
    ("info", .obj (.ofList [("title", .s "T"), ("version", .s "1.0")])),
    ("paths", .obj .fnil),
    ("components", .obj (.ofList [("schemas", .obj (.ofList
      [("Address", .obj (.ofList [("type", .s "object"),
         ("properties", .obj (.ofList [(fieldName, .obj (.ofList
           [("type", .s "string")]))]))])),
       ("User", .obj (.ofList [("type", .s "object"),
         ("properties", .obj (.ofList [("address", .obj (.ofList
           [("$ref", .s "#/components/schemas/Address")]))]))]))]))]))]

/-- alpha's and beta's `User`/`Address` documents. -/
def fsUserAddr : SpecFs :=
  [("a.yaml", userAddrDoc "street"), ("b.yaml", userAddrDoc "city")]

/-- Services `account` and `accounting` in insertion order (account first). -/
def svcAcctFwd : SubServices :=
  [("account", ⟨some "/api/account", some "account.yaml"⟩),
   ("accounting", ⟨some "/api/accounting", some "accounting.yaml"⟩)]

/-- The same two services with the opposite insertion order. -/
def svcAcctRev : SubServices :=
  [("accounting", ⟨some "/api/accounting", some "accounting.yaml"⟩),
   ("account", ⟨some "/api/account", some "account.yaml"⟩)]

/-- Both `account` and `accounting` define `Address` and a `User` that
references their own `Address`. -/
def fsAcct : SpecFs :=
  [("account.yaml", userAddrDoc "street"),
   ("accounting.yaml", userAddrDoc "city")]

/-- beta's document alone on disk; alpha's `a.yaml` is missing. -/
def fsOnlyBeta : SpecFs := [("b.yaml", userAddrDoc "city")]

/-- The `beta` service alone. -/
def svcOnlyBeta : SubServices := [("beta", ⟨some "/api/beta", some "b.yaml"⟩)]

/-! ### Dictionary lemmas -/

/-- Lookup after Python dict assignment: the assigned key reads back the
new value, every other key is untouched. -/
theorem jlookup_jset (l : JFields) (key k : String) (v : JVal) :
    jlookup (jset l key v) k = if k = key then some v else jlookup l k :=
  match l with
  | .fnil => by
      by_cases h : k = key
      · subst h; simp [jset, jlookup]
      · have h' : ¬ key = k := fun hh => h hh.symm
        simp [jset, jlookup, h, h']
  | .fcons k' w rest => by
      have ih := jlookup_jset rest key k v
      by_cases h1 : k' = key
      · subst h1
        by_cases h2 : k' = k
        · subst h2; simp [jset, jlookup]
        · have h2' : ¬ k = k' := fun hh => h2 hh.symm
          simp [jset, jlookup, h2, h2']
      · by_cases h2 : k' = k
        · subst h2
          simp [jset, jlookup, h1]
        · simp [jset, jlookup, h1, h2, ih]

/-- `jmem` over Python dict assignment. -/
theorem jmem_jset (l : JFields) (key k : String) (v : JVal) :
    jmem (jset l key v) k = true ↔ (k = key ∨ jmem l k = true) := by
  simp only [jmem, jlookup_jset]
  by_cases h : k = key <;> simp [h]

/-- `_merge_schemas` only ever assigns keys, so existing keys survive. -/
theorem jmem_merge_schemas_mono (sname : String) :
    ∀ (schemas all : JFields) (k : String), jmem all k = true →
      jmem (merge_schemas all sname schemas) k = true
  | .fnil, _, _, h => h
  | .fcons n b rest, all, k, h => by
      cases b with
      | s v => exact jmem_merge_schemas_mono sname rest _ k ((jmem_jset _ _ _ _).mpr (Or.inr h))
      | b v => exact jmem_merge_schemas_mono sname rest _ k ((jmem_jset _ _ _ _).mpr (Or.inr h))
      | obj fs => exact jmem_merge_schemas_mono sname rest _ k ((jmem_jset _ _ _ _).mpr (Or.inr h))
      | arr xs => exact jmem_merge_schemas_mono sname rest _ k ((jmem_jset _ _ _ _).mpr (Or.inr h))

/-- `_merge_schemas` establishes the prefixed key for every schema of the
service. -/
theorem jmem_merge_schemas_self (sname : String) :
    ∀ (schemas all : JFields) (n : String) (b : JVal),
      jlookup schemas n = some b →
      jmem (merge_schemas all sname schemas) (to_pascal_case sname ++ n) = true
  | .fnil, _, n, b, h => by simp [jlookup] at h
  | .fcons n' b' rest, all, n, b, h => by
      by_cases hn : n' = n
      · subst hn
        cases b' with
        | s v => exact jmem_merge_schemas_mono sname rest _ _ ((jmem_jset _ _ _ _).mpr (Or.inl rfl))
        | b v => exact jmem_merge_schemas_mono sname rest _ _ ((jmem_jset _ _ _ _).mpr (Or.inl rfl))
        | obj fs => exact jmem_merge_schemas_mono sname rest _ _ ((jmem_jset _ _ _ _).mpr (Or.inl rfl))
        | arr xs => exact jmem_merge_schemas_mono sname rest _ _ ((jmem_jset _ _ _ _).mpr (Or.inl rfl))
      · have h' : jlookup rest n = some b := by
          simpa [jlookup, hn] using h
        cases b' with
        | s v => exact jmem_merge_schemas_self sname rest _ n b h'
        | b v => exact jmem_merge_schemas_self sname rest _ n b h'
        | obj fs => exact jmem_merge_schemas_self sname rest _ n b h'
        | arr xs => exact jmem_merge_schemas_self sname rest _ n b h'

/-- The tags block leaves `all_schemas` untouched. -/
theorem tagsStep_all_schemas (spec : JFields) (st : MergeState) :
    (tagsStep spec st).all_schemas = st.all_schemas := by
  unfold tagsStep
  split <;> rfl

/-- The paths block leaves `all_schemas` untouched. -/
theorem pathsStep_all_schemas (sname base_path : String) (spec : JFields)
    (st : MergeState) :
    (pathsStep sname base_path spec st).all_schemas = st.all_schemas := by
  unfold pathsStep
  split <;> rfl

/-- The parameters block leaves `all_schemas` untouched. -/
theorem paramsStep_all_schemas (spec : JFields) (st : MergeState) :
    (paramsStep spec st).all_schemas = st.all_schemas := by
  unfold paramsStep
  split
  · split <;> rfl
  · rfl

/-- The schemas block only extends `all_schemas`. -/
theorem jmem_schemasStep_mono (sname : String) (spec : JFields)
    (st : MergeState) (k : String) (h : jmem st.all_schemas k = true) :
    jmem (schemasStep sname spec st).all_schemas k = true := by
  unfold schemasStep
  split
  · split
    · exact jmem_merge_schemas_mono sname _ st.all_schemas k h
    · exact h
  · exact h

/-- The schemas block inserts the prefixed key of every schema the service
defines. -/
theorem jmem_schemasStep_self (sname : String) (spec : JFields)
    (st : MergeState) (comps schemas : JFields) (n : String) (b : JVal)
    (hc : jlookup spec "components" = some (.obj comps))
    (hs : jlookup comps "schemas" = some (.obj schemas))
    (hn : jlookup schemas n = some b) :
    jmem (schemasStep sname spec st).all_schemas (to_pascal_case sname ++ n) = true := by
  simp only [schemasStep, hc, hs]
  exact jmem_merge_schemas_self sname schemas st.all_schemas n b hn

/-- `_merge_one_sub_service` only extends `all_schemas`. -/
theorem jmem_merge_one_mono (sname base_path spec_path : String) (fs : SpecFs)
    (st : MergeState) (k : String) (h : jmem st.all_schemas k = true) :
    jmem (merge_one_sub_service sname base_path spec_path fs st).all_schemas k = true := by
  unfold merge_one_sub_service
  cases flookup fs spec_path with
  | none => exact h
  | some spec =>
      rw [paramsStep_all_schemas]
      refine jmem_schemasStep_mono sname spec _ k ?_
      rw [pathsStep_all_schemas, tagsStep_all_schemas]
      exact h

/-- `_merge_one_sub_service` inserts the prefixed key of every schema the
service's (existing) spec defines. -/
theorem jmem_merge_one_self (sname base_path spec_path : String) (fs : SpecFs)
    (st : MergeState) (spec comps schemas : JFields) (n : String) (b : JVal)
    (hf : flookup fs spec_path = some spec)
    (hc : jlookup spec "components" = some (.obj comps))
    (hs : jlookup comps "schemas" = some (.obj schemas))
    (hn : jlookup schemas n = some b) :
    jmem (merge_one_sub_service sname base_path spec_path fs st).all_schemas
      (to_pascal_case sname ++ n) = true := by
  unfold merge_one_sub_service
  rw [hf, paramsStep_all_schemas]
  exact jmem_schemasStep_self sname spec _ comps schemas n b hc hs hn

/-- One service-loop step only extends `all_schemas`. -/
theorem jmem_mergeServiceStep_mono (fs : SpecFs) (st : MergeState)
    (kv : String × SvcCfg) (k : String) (h : jmem st.all_schemas k = true) :
    jmem (mergeServiceStep fs st kv).all_schemas k = true := by
  unfold mergeServiceStep
  cases kv.2.spec_path with
  | none => exact h
  | some p => exact jmem_merge_one_mono kv.1 _ p fs st k h

/-- One service-loop step inserts the prefixed keys of its own (existing)
spec's schemas. -/
theorem jmem_mergeServiceStep_self (fs : SpecFs) (st : MergeState)
    (kv : String × SvcCfg) (p : String) (spec comps schemas : JFields)
    (n : String) (b : JVal)
    (hp : kv.2.spec_path = some p)
    (hf : flookup fs p = some spec)
    (hc : jlookup spec "components" = some (.obj comps))
    (hs : jlookup comps "schemas" = some (.obj schemas))
    (hn : jlookup schemas n = some b) :
    jmem (mergeServiceStep fs st kv).all_schemas (to_pascal_case kv.1 ++ n) = true := by
  unfold mergeServiceStep
  rw [hp]
  exact jmem_merge_one_self kv.1 _ p fs st spec comps schemas n b hf hc hs hn

/-- The whole service loop only extends `all_schemas`. -/
theorem jmem_mergeFold_mono (fs : SpecFs) (l : List (String × SvcCfg)) :
    ∀ (st : MergeState) (k : String), jmem st.all_schemas k = true →
      jmem ((l.foldl (mergeServiceStep fs) st)).all_schemas k = true := by
  induction l with
  | nil => exact fun _ _ h => h
  | cons x xs ih =>
      exact fun st k h => ih _ k (jmem_mergeServiceStep_mono fs st x k h)

/-- The service loop inserts the prefixed keys of every member service's
(existing) spec's schemas. -/
theorem jmem_mergeFold_self (fs : SpecFs) (l : List (String × SvcCfg)) :
    ∀ (st : MergeState) (sname : String) (cfg : SvcCfg) (p : String)
      (spec comps schemas : JFields) (n : String) (b : JVal),
      (sname, cfg) ∈ l → cfg.spec_path = some p → flookup fs p = some spec →
      jlookup spec "components" = some (.obj comps) →
      jlookup comps "schemas" = some (.obj schemas) →
      jlookup schemas n = some b →
      jmem ((l.foldl (mergeServiceStep fs) st)).all_schemas
        (to_pascal_case sname ++ n) = true := by
  induction l with
  | nil => intro _ _ _ _ _ _ _ _ _ hmem; cases hmem
  | cons x xs ih =>
      intro st sname cfg p spec comps schemas n b hmem hp hf hc hs hn
      rcases List.mem_cons.mp hmem with heq | htl
      · subst heq
        exact jmem_mergeFold_mono fs xs _ _
          (jmem_mergeServiceStep_self fs st _ p spec comps schemas n b hp hf hc hs hn)
      · exact ih _ sname cfg p spec comps schemas n b htl hp hf hc hs hn

/-- Insertion preserves (and adds) membership in the sorted service list. -/
theorem mem_insertSortedSvc (x y : String × SvcCfg) :
    ∀ l : SubServices, (y = x ∨ y ∈ l) → y ∈ insertSortedSvc x l
  | [], h => by
      rcases h with h | h
      · simp [insertSortedSvc, h]
      · cases h
  | z :: zs, h => by
      simp only [insertSortedSvc]
      by_cases hlt : pyLt z.1 x.1
      · rw [if_pos hlt]
        rcases h with h | h
        · exact List.mem_cons_of_mem z (mem_insertSortedSvc x y zs (Or.inl h))
        · rcases List.mem_cons.mp h with h | h
          · exact h ▸ List.mem_cons_self z _
          · exact List.mem_cons_of_mem z (mem_insertSortedSvc x y zs (Or.inr h))
      · rw [if_neg hlt]
        rcases h with h | h
        · exact h ▸ List.mem_cons_self x _
        · exact List.mem_cons_of_mem x h

/-- Membership survives `sorted(sub_services.items())`. -/
theorem mem_sortedSubServices (y : String × SvcCfg) :
    ∀ l : SubServices, y ∈ l → y ∈ sortedSubServices l
  | x :: xs, h => by
      rcases List.mem_cons.mp h with h | h
      · exact mem_insertSortedSvc x y (sortedSubServices xs) (Or.inl h)
      · exact mem_insertSortedSvc x y (sortedSubServices xs)
          (Or.inr (mem_sortedSubServices y xs h))

/-- Membership in a cons cell of a mapping. -/
theorem jmem_fcons (k' : String) (w : JVal) (rest : JFields) (k : String) :
    jmem (.fcons k' w rest) k = true ↔ (k' = k ∨ jmem rest k = true) := by
  by_cases h : k' = k <;> simp [jmem, jlookup, h]

/-- The global `$ref` pass rewrites values only; keys are unchanged. -/
theorem jmem_globalRefPass (mapping : List (String × List String))
    (schemaKeys : List String) (sub_services : SubServices) :
    ∀ (l : JFields) (k : String),
      jmem (globalRefPass mapping schemaKeys sub_services l) k = jmem l k
  | .fnil, _ => rfl
  | .fcons k' v rest, k => by
      have ih := jmem_globalRefPass mapping schemaKeys sub_services rest k
      by_cases h : k' = k
      · simp [globalRefPass, jmem, jlookup, h]
      · simp only [globalRefPass, jmem, jlookup, if_neg h]
        exact ih

/-- The `Error`-aliasing loop only ever assigns the `Error` key, so
existing keys survive. -/
theorem jmem_aliasErrorLoop_mono (k : String) :
    ∀ (names : List String) (all_schemas all_paths : JFields),
      jmem all_schemas k = true →
      jmem (aliasErrorLoop all_schemas all_paths names).1 k = true
  | [], _, _, h => h
  | sname :: rest, all_schemas, all_paths, h => by
      simp only [aliasErrorLoop]
      by_cases hm : jmem all_schemas (to_pascal_case sname ++ "Error")
      · simp only [hm, if_true]
        exact (jmem_jset _ _ _ _).mpr (Or.inr h)
      · simp only [hm, if_false]
        exact jmem_aliasErrorLoop_mono k rest all_schemas all_paths h

/-- `_add_error_schema` only ever assigns the `Error` key, so existing
keys survive. -/
theorem jmem_add_error_schema_mono (all_schemas all_paths : JFields)
    (sub_services : SubServices) (k : String) (h : jmem all_schemas k = true) :
    jmem (add_error_schema all_schemas all_paths sub_services).1 k = true := by
  unfold add_error_schema
  by_cases hm : jmem all_schemas "Error"
  · simp only [hm, if_true]
    exact jmem_aliasErrorLoop_mono k _ _ _ h
  · simp only [hm, if_false]
    exact jmem_aliasErrorLoop_mono k _ _ _ ((jmem_jset _ _ _ _).mpr (Or.inr h))

/-- Membership after sorted insertion of a field. -/
theorem jmem_insertSortedFields (key k : String) (v : JVal) :
    ∀ l : JFields, jmem (insertSortedFields key v l) k = true ↔
      (key = k ∨ jmem l k = true)
  | .fnil => by
      simp only [insertSortedFields]
      rw [jmem_fcons]
  | .fcons k' w rest => by
      have ih := jmem_insertSortedFields key k v rest
      simp only [insertSortedFields]
      by_cases hlt : pyLt k' key
      · rw [if_pos hlt, jmem_fcons, ih, jmem_fcons]
        tauto
      · rw [if_neg hlt, jmem_fcons, jmem_fcons]

/-- Membership is invariant under `dict(sorted(d.items()))`. -/
theorem jmem_pySortedFields (k : String) :
    ∀ l : JFields, jmem (pySortedFields l) k = true ↔ jmem l k = true
  | .fnil => Iff.rfl
  | .fcons k' v rest => by
      have ih := jmem_pySortedFields k rest
      simp only [pySortedFields]
      rw [jmem_insertSortedFields, ih, jmem_fcons]

/-- The `components.schemas` mapping of the merged document, exactly as
assembled by `merge_sub_service_specs`. -/
def mergedSchemasOf (sub_services : SubServices) (fs : SpecFs) : JFields :=
  let st := (sortedSubServices sub_services).foldl (mergeServiceStep fs)
    ⟨.fnil, [], .fnil, .fnil⟩
  let mapping := schema_name_mapping st.all_schemas sub_services
  let schemaKeys := jkeys st.all_schemas
  let all_schemas := globalRefPass mapping schemaKeys sub_services st.all_schemas
  pySortedFields (add_error_schema all_schemas st.all_paths sub_services).1

/-- Reading `components.schemas` out of the merged document gives exactly
`mergedSchemasOf`. -/
theorem merged_components_schemas (sub_services : SubServices)
    (info : Option JFields) (fs : SpecFs) :
    jget (merge_sub_service_specs sub_services info fs) ["components", "schemas"] =
      some (.obj (mergedSchemasOf sub_services fs)) := rfl

/-- Two appended lists agreeing force one part to be a prefix of the
other. -/
theorem append_eq_append_cases :
    ∀ (a c b d : List Char), a ++ b = c ++ d →
      (∃ t, c = a ++ t) ∨ (∃ t, a = c ++ t)
  | [], c, _, _, _ => Or.inl ⟨c, rfl⟩
  | x :: a, [], _, _, _ => Or.inr ⟨x :: a, rfl⟩
  | x :: a, y :: c, b, d, h => by
      simp only [List.cons_append, List.cons.injEq] at h
      rcases append_eq_append_cases a c b d h.2 with ⟨t, ht⟩ | ⟨t, ht⟩
      · exact Or.inl ⟨t, by simp [h.1, ht]⟩
      · exact Or.inr ⟨t, by simp [h.1, ht]⟩

/-- Strings with equal character data are equal. -/
theorem string_eq_of_data (a b : String) (h : a.data = b.data) : a = b := by
  cases a; cases b; exact congrArg String.mk h


/-! ### String-order and prefix lemmas (used by the general ref-resolution
and injectivity theorems) -/

theorem pyLtL_irrefl : ∀ a : List Char, pyLtL a a = false
  | [] => rfl
  | c :: a => by simp [pyLtL, pyLtL_irrefl a]

theorem pyLtL_asymm : ∀ a b : List Char, pyLtL a b = true → pyLtL b a = false
  | [], [], h => by simp [pyLtL] at h
  | [], _ :: _, _ => rfl
  | _ :: _, [], h => by simp [pyLtL] at h
  | c :: a, d :: b, h => by
      by_cases hcd : c = d
      · subst hcd
        simp only [pyLtL, if_pos rfl] at h ⊢
        exact pyLtL_asymm a b h
      · have hdc : ¬ d = c := fun hh => hcd hh.symm
        simp only [pyLtL, if_neg hcd, decide_eq_true_eq] at h
        simp only [pyLtL, if_neg hdc, decide_eq_false_iff_not]
        exact lt_asymm h

theorem startsWithL_nil_right : ∀ s : List Char, startsWithL s [] = true
  | [] => rfl
  | _ :: _ => rfl

theorem startsWithL_append_self : ∀ a x : List Char, startsWithL (a ++ x) a = true
  | [], x => startsWithL_nil_right x
  | c :: a, x => by simp [startsWithL, startsWithL_append_self a x]

theorem startsWithL_iff : ∀ s p : List Char, startsWithL s p = true ↔ p <+: s
  | s, [] => by simp [startsWithL]
  | [], c :: p => by
      simp [startsWithL, List.prefix_nil]
  | c :: s, d :: p => by
      simp only [startsWithL, Bool.and_eq_true, decide_eq_true_eq]
      constructor
      · rintro ⟨rfl, h⟩
        exact (List.cons_prefix_cons).mpr ⟨rfl, (startsWithL_iff s p).mp h⟩
      · intro h
        rcases (List.cons_prefix_cons).mp h with ⟨rfl, h2⟩
        exact ⟨rfl, (startsWithL_iff s p).mpr h2⟩

theorem pyLtL_append_left : ∀ a x y : List Char, pyLtL (a ++ x) (a ++ y) = pyLtL x y
  | [], _, _ => rfl
  | c :: a, x, y => by simp [pyLtL, pyLtL_append_left a x y]

theorem pyLtL_cross : ∀ a b x y : List Char, ¬ a <+: b → ¬ b <+: a →
    pyLtL a b = true → pyLtL (a ++ x) (b ++ y) = true
  | [], b, _, _, h12, _, _ => absurd List.nil_prefix h12
  | _ :: _, [], _, _, _, _, h => by simp [pyLtL] at h
  | c :: a, d :: b, x, y, h12, h21, h => by
      by_cases hcd : c = d
      · subst hcd
        simp only [pyLtL, if_pos rfl] at h ⊢
        have h12' : ¬ a <+: b := fun hp => h12 ((List.cons_prefix_cons).mpr ⟨rfl, hp⟩)
        have h21' : ¬ b <+: a := fun hp => h21 ((List.cons_prefix_cons).mpr ⟨rfl, hp⟩)
        exact pyLtL_cross a b x y h12' h21' h
      · simp only [pyLtL, if_neg hcd] at h ⊢
        simpa using h

theorem startsWithL_append_free (a b x : List Char)
    (h12 : ¬ a <+: b) (h21 : ¬ b <+: a) : startsWithL (a ++ x) b = false := by
  rw [← Bool.not_eq_true, startsWithL_iff]
  intro hpre
  rcases Nat.le_total b.length a.length with hl | hl
  · exact h21 (List.prefix_of_prefix_length_le hpre (List.prefix_append a x) hl)
  · exact h12 (List.prefix_of_prefix_length_le (List.prefix_append a x) hpre hl)

theorem ne_append_of_prefix_free (a b x y : String)
    (h12 : ¬ a.data <+: b.data) (h21 : ¬ b.data <+: a.data) : a ++ x ≠ b ++ y := by
  intro h
  have hd : a.data ++ x.data = b.data ++ y.data := congrArg String.data h
  rcases append_eq_append_cases _ _ _ _ hd with ⟨t, ht⟩ | ⟨t, ht⟩
  · exact h12 ⟨t, ht.symm⟩
  · exact h21 ⟨t, ht.symm⟩

theorem append_right_ne (a : String) {x y : String} (h : x ≠ y) : a ++ x ≠ a ++ y :=
  fun hh => h (string_eq_of_data _ _ (List.append_cancel_left (congrArg String.data hh)))

theorem append_ne_of_suffix (a x c : String)
    (h : ¬ x.data.reverse <+: c.data.reverse) : a ++ x ≠ c := by
  intro he
  have hd : x.data.reverse ++ a.data.reverse = c.data.reverse := by
    rw [← List.reverse_append]
    exact congrArg (fun s : String => s.data.reverse) he
  exact h ⟨a.data.reverse, hd⟩

theorem append_ne_right (a x : String) (h : a.data ≠ []) : a ++ x ≠ x := by
  intro he
  have hd : a.data ++ x.data = x.data := congrArg String.data he
  have := congrArg List.length hd
  simp at this
  exact h (List.length_eq_zero.mp this)

theorem jlookup_insertSortedFields (key k : String) (v : JVal) :
    ∀ l : JFields, jlookup (insertSortedFields key v l) k =
      if key = k then some v else jlookup l k
  | .fnil => rfl
  | .fcons k' w rest => by
      have ih := jlookup_insertSortedFields key k v rest
      simp only [insertSortedFields]
      by_cases hlt : pyLt k' key
      · rw [if_pos hlt]
        by_cases hk : k' = k
        · subst hk
          by_cases hkey : key = k'
          · subst hkey
            simp [pyLt, pyLtL_irrefl] at hlt
          · simp [jlookup, hkey]
        · simp only [jlookup, if_neg hk, ih]
      · rw [if_neg hlt]
        by_cases hkey : key = k
        · simp [jlookup, hkey]
        · simp [jlookup, hkey]

theorem jlookup_pySortedFields (k : String) :
    ∀ l : JFields, jlookup (pySortedFields l) k = jlookup l k
  | .fnil => rfl
  | .fcons k' v rest => by
      have ih := jlookup_pySortedFields k rest
      simp only [pySortedFields, jlookup_insertSortedFields, ih, jlookup]

theorem asString_data (s : String) : s.data.asString = s := by cases s; rfl

def svc2 (s1 s2 : String) : SubServices :=
  [(s1, ⟨some "/api/a", some "a.yaml"⟩), (s2, ⟨some "/api/b", some "b.yaml"⟩)]


/-! ### Claim theorems -/

/-- Claim C1 (code evaluated at the failing input): on two services that
both define `GET /items`, `merge_sub_service_specs` raises nothing and
silently keeps the later (sorted-last) service's operation — the merged
`GET /items` is beta's `listB`, tagged `x-service: beta`; alpha's
operation is gone.  The spec instead demands a `PathCollisionError`. -/
theorem c1_path_method_collision_kept_silently :
    jgetStr (merge_sub_service_specs svcAlphaBeta none fsItemsSame)
        ["paths", "/items", "get", "x-service"] = some "beta" ∧
    jgetStr (merge_sub_service_specs svcAlphaBeta none fsItemsSame)
        ["paths", "/items", "get", "operationId"] = some "listB" := by
  constructor <;> decide

/-- Claim C2 (code evaluated at the failing input): when both `auth` and
`idam` define their own `Error` schema, `merge_sub_service_specs` raises
nothing and silently aliases the canonical `Error` to the first sorted
service's `AuthError`; `IdamError` is present but never chosen.  The spec
instead demands a failure naming both `AuthError` and `IdamError`. -/
theorem c2_error_ambiguity_aliased_silently :
    jgetStr (merge_sub_service_specs svcAuthIdam none fsError)
        ["components", "schemas", "Error", "$ref"] =
      some "#/components/schemas/AuthError" ∧
    jgetStr (merge_sub_service_specs svcAuthIdam none fsError)
        ["components", "schemas", "IdamError", "type"] = some "object" := by
  constructor <;> decide

/-- Claim C3 (code evaluated at the failing input): with alpha contributing
`GET /items` and beta contributing `POST /items`, the merged
`paths["/items"]` does NOT contain both methods: beta's path item
overwrites alpha's wholesale (`all_paths[path] = path_def`), so `get` is
absent and only `post` (tagged beta) remains.  The claim's union property
fails. -/
theorem c3_path_item_overwritten_not_unioned :
    (jget (merge_sub_service_specs svcAlphaBeta none fsItemsDiff)
        ["paths", "/items", "get"]).isNone = true ∧
    jgetStr (merge_sub_service_specs svcAlphaBeta none fsItemsDiff)
        ["paths", "/items", "post", "x-service"] = some "beta" := by
  constructor <;> decide

/-- Claim C4 (code evaluated at the failing input): with services `account`
and `accounting` (insertion order account first), each defining `Address`
and a `User` referencing it, `_service_prefix_for_schema` attributes
`AccountingUser` to the FIRST matching prefix `Account` (not the longest
match `Accounting`), and the merged `AccountingUser`'s `Address` ref is
cross-wired to `AccountAddress` instead of `AccountingAddress`. -/
theorem c4_first_match_prefix_cross_wires_ref :
    service_prefix_for_schema "AccountingUser" svcAcctFwd = some "Account" ∧
    jgetStr (merge_sub_service_specs svcAcctFwd none fsAcct)
        ["components", "schemas", "AccountingUser", "properties", "address", "$ref"] =
      some "#/components/schemas/AccountAddress" := by
  constructor <;> decide

/-- Claim C5 (code evaluated at the failing input): merging the same two
sub-service documents with the `sub_services` mapping supplied in two
insertion orders produces different merged documents —
`AccountingUser`'s `Address` ref resolves to `AccountAddress` under one
order and to `AccountingAddress` under the other, because
`_service_prefix_for_schema` iterates the dict in insertion order without
sorting. -/
theorem c5_output_depends_on_insertion_order :
    jgetStr (merge_sub_service_specs svcAcctFwd none fsAcct)
        ["components", "schemas", "AccountingUser", "properties", "address", "$ref"] =
      some "#/components/schemas/AccountAddress" ∧
    jgetStr (merge_sub_service_specs svcAcctRev none fsAcct)
        ["components", "schemas", "AccountingUser", "properties", "address", "$ref"] =
      some "#/components/schemas/AccountingAddress" ∧
    merge_sub_service_specs svcAcctFwd none fsAcct ≠
      merge_sub_service_specs svcAcctRev none fsAcct := by
  refine ⟨by decide, by decide, fun h => ?_⟩
  have hc := congrArg
    (fun v => jgetStr v
      ["components", "schemas", "AccountingUser", "properties", "address", "$ref"]) h
  have h1 : jgetStr (merge_sub_service_specs svcAcctFwd none fsAcct)
      ["components", "schemas", "AccountingUser", "properties", "address", "$ref"] =
      some "#/components/schemas/AccountAddress" := by decide
  have h2 : jgetStr (merge_sub_service_specs svcAcctRev none fsAcct)
      ["components", "schemas", "AccountingUser", "properties", "address", "$ref"] =
      some "#/components/schemas/AccountingAddress" := by decide
  dsimp only at hc
  rw [h1, h2] at hc
  exact absurd hc (by decide)

/-- Claim C9: every merged operation is the input operation with exactly
the three extension fields attached (`x-service`, `x-service-base-path`,
`x-brrtrouter-downstream-path`), every other key unchanged; and the
downstream path equals `base_path.rstrip('/') + '/' + path.strip('/')`
when the stripped operation path is non-empty, else `base_path.rstrip('/')`
alone. -/
theorem c9_three_extension_fields_and_downstream (sname base_path path : String)
    (op : JFields) (k : String) :
    jlookup (annotateOp sname base_path path op) k =
      if k = "x-brrtrouter-downstream-path" then
        some (.s (if pyStripSlash path ≠ "" then
            pyRstripSlash base_path ++ "/" ++ pyStripSlash path
          else pyRstripSlash base_path))
      else if k = "x-service-base-path" then some (.s base_path)
      else if k = "x-service" then some (.s sname)
      else jlookup op k := by
  unfold annotateOp downstream_path
  rw [jlookup_jset, jlookup_jset, jlookup_jset]

/-- Claim C10: a sub-service whose configured `spec_path` does not exist on
the filesystem is silently skipped — `_merge_one_sub_service` returns the
accumulated state unchanged (no paths, schemas, tags or parameters are
contributed, and nothing is raised) — and the merge of the remaining
services completes normally (merging alpha-with-missing-file plus beta
equals merging beta alone). -/
theorem c10_missing_spec_file_skipped (sname base_path spec_path : String)
    (fs : SpecFs) (st : MergeState)
    (h : (flookup fs spec_path).isNone = true) :
    merge_one_sub_service sname base_path spec_path fs st = st ∧
    merge_sub_service_specs svcAlphaBeta none fsOnlyBeta =
      merge_sub_service_specs svcOnlyBeta none fsOnlyBeta := by
  refine ⟨?_, rfl⟩
  cases hf : flookup fs spec_path with
  | none => simp [merge_one_sub_service, hf]
  | some spec => rw [hf] at h; simp [Option.isNone] at h

/-- Lookup after overwriting an address. -/
theorem hlookup_hset (st : Store) (a : Nat) (nd : HNode) (b : Nat) :
    hlookup (hset st a nd) b = if b = a then some nd else hlookup st b :=
  match st with
  | [] => by
      by_cases h : b = a
      · subst h; simp [hset, hlookup]
      · have h' : ¬ a = b := fun hh => h hh.symm
        simp [hset, hlookup, h, h']
  | (a', w) :: rest => by
      have ih := hlookup_hset rest a nd b
      by_cases h1 : a' = a
      · subst h1
        by_cases h2 : a' = b
        · subst h2; simp [hset, hlookup]
        · have h2' : ¬ b = a' := fun hh => h2 hh.symm
          simp [hset, hlookup, h2, h2']
      · by_cases h2 : a' = b
        · subst h2
          simp [hset, hlookup, h1]
        · simp [hset, hlookup, h1, h2, ih]

/-- Addresses at or above `freshAddr` are unbound. -/
theorem hlookup_none_of_fresh_le :
    ∀ (st : Store) (b : Nat), freshAddr st ≤ b → hlookup st b = none
  | [], _, _ => rfl
  | (a, nd) :: rest, b, h => by
      have h1 : a + 1 ≤ b := le_trans (le_max_left _ _) (le_trans le_rfl h)
      have h2 : freshAddr rest ≤ b := le_trans (le_max_right _ _) h
      have hab : ¬ a = b := by omega
      simp only [hlookup, if_neg hab]
      exact hlookup_none_of_fresh_le rest b h2

/-- The fresh address is unbound. -/
theorem hlookup_freshAddr (st : Store) : hlookup st (freshAddr st) = none :=
  hlookup_none_of_fresh_le st _ le_rfl

/-- A successful lookup is a binding of the store. -/
theorem hlookup_mem :
    ∀ (st : Store) (a : Nat) (nd : HNode), hlookup st a = some nd → (a, nd) ∈ st
  | [], _, _, h => by simp [hlookup] at h
  | (a', w) :: rest, a, nd, h => by
      by_cases h1 : a' = a
      · subst h1
        simp [hlookup] at h
        subst h
        exact List.mem_cons_self _ _
      · simp only [hlookup, if_neg h1] at h
        exact List.mem_cons_of_mem _ (hlookup_mem rest a nd h)

/-- Replacing an existing string field by a string keeps the pointers. -/
theorem fieldPtrs_hfset_str :
    ∀ (fs : List (String × HVal)) (key r x : String),
      hflookup fs key = some (.s r) →
      fieldPtrs (hfset fs key (.s x)) = fieldPtrs fs
  | [], _, _, _, h => by simp [hflookup] at h
  | (k, v) :: rest, key, r, x, h => by
      by_cases h1 : k = key
      · subst h1
        simp [hflookup] at h
        subst h
        simp [hfset, fieldPtrs]
      · simp only [hflookup, if_neg h1] at h
        cases v <;> simp [hfset, h1, fieldPtrs, fieldPtrs_hfset_str rest key r x h]

/-- Pointers leaving each node after overwriting one address. -/
theorem ptrsOf_hset (st : Store) (a : Nat) (nd : HNode) (b : Nat) :
    ptrsOf (hset st a nd) b = if b = a then nodePtrs nd else ptrsOf st b := by
  unfold ptrsOf
  rw [hlookup_hset]
  by_cases h : b = a <;> simp [h]

/-- A pointer-valued field contributes its address to `fieldPtrs`. -/
theorem mem_fieldPtrs :
    ∀ (fs : List (String × HVal)) (k : String) (c : Nat),
      (k, HVal.addr c) ∈ fs → c ∈ fieldPtrs fs
  | [], _, _, h => by cases h
  | (k', v) :: rest, k, c, h => by
      rcases List.mem_cons.mp h with h1 | h1
      · cases h1
        simp [fieldPtrs]
      · cases v with
        | addr a =>
            simp only [fieldPtrs, List.mem_cons]
            exact Or.inr (mem_fieldPtrs rest k c h1)
        | s w =>
            simp only [fieldPtrs]
            exact mem_fieldPtrs rest k c h1

/-- A pointer item contributes its address to `itemPtrs`. -/
theorem mem_itemPtrs :
    ∀ (xs : List HVal) (c : Nat), HVal.addr c ∈ xs → c ∈ itemPtrs xs
  | [], _, h => by cases h
  | v :: rest, c, h => by
      rcases List.mem_cons.mp h with h1 | h1
      · cases h1
        simp [itemPtrs]
      · cases v with
        | addr a =>
            simp only [itemPtrs, List.mem_cons]
            exact Or.inr (mem_itemPtrs rest c h1)
        | s w =>
            simp only [itemPtrs]
            exact mem_itemPtrs rest c h1

/-- `_update_refs_in_value` only rewrites `$ref` strings: the pointer
structure of every node is unchanged (fold helper). -/
theorem ptrsOf_updRefsH_fold (old new : String) (fuel : Nat)
    (IH : ∀ (a : Nat) (st : Store) (x : Nat),
      ptrsOf (updRefsH fuel old new a st) x = ptrsOf st x) :
    ∀ (vs : List HVal) (st : Store) (x : Nat),
      ptrsOf (vs.foldl
        (fun st v =>
          match v with
          | HVal.addr a' => updRefsH fuel old new a' st
          | _ => st) st) x = ptrsOf st x
  | [], _, _ => rfl
  | v :: vs, st, x => by
      rw [List.foldl_cons]
      cases v with
      | s w => exact ptrsOf_updRefsH_fold old new fuel IH vs st x
      | addr a' =>
          rw [ptrsOf_updRefsH_fold old new fuel IH vs _ x]
          exact IH a' st x

/-- `_update_refs_in_value` only rewrites `$ref` strings: the pointer
structure of every node is unchanged. -/
theorem ptrsOf_updRefsH (old new : String) :
    ∀ (fuel : Nat) (a : Nat) (st : Store) (x : Nat),
      ptrsOf (updRefsH fuel old new a st) x = ptrsOf st x
  | 0, _, _, _ => rfl
  | fuel + 1, a, st, x => by
      have IH := ptrsOf_updRefsH old new fuel
      unfold updRefsH
      split
      · -- some (.obj fs)
        next fs heq =>
        rw [ptrsOf_updRefsH_fold old new fuel IH, ptrsOf_hset]
        by_cases hax : x = a
        · subst hax
          have hnode : ptrsOf st x = nodePtrs (.obj fs) := by
            unfold ptrsOf; rw [heq]
          rw [if_pos rfl, hnode]
          split
          · next r hr =>
            split
            · next hcond =>
              simp only [nodePtrs]
              exact fieldPtrs_hfset_str fs "$ref" r _ hr
            · rfl
          · rfl
        · rw [if_neg hax]
      · -- some (.arr xs)
        next xs heq =>
        exact ptrsOf_updRefsH_fold old new fuel IH xs st x
      · rfl

/-- Frame property of `_update_refs_in_value` (fold helper): a node that no
node points to and that is not the start is never written. -/
theorem updRefsH_frame_fold (old new : String) (fuel : Nat)
    (IH : ∀ (a : Nat) (st : Store) (b : Nat),
      (∀ x, b ∉ ptrsOf st x) → b ≠ a →
      hlookup (updRefsH fuel old new a st) b = hlookup st b) :
    ∀ (vs : List HVal) (st : Store) (b : Nat),
      (∀ x, b ∉ ptrsOf st x) → (∀ c, HVal.addr c ∈ vs → b ≠ c) →
      hlookup (vs.foldl
        (fun st v =>
          match v with
          | HVal.addr a' => updRefsH fuel old new a' st
          | _ => st) st) b = hlookup st b
  | [], _, _, _, _ => rfl
  | v :: vs, st, b, hni, hcs => by
      rw [List.foldl_cons]
      cases v with
      | s w =>
          exact updRefsH_frame_fold old new fuel IH vs st b hni
            (fun c hc => hcs c (List.mem_cons_of_mem _ hc))
      | addr a' =>
          have hni' : ∀ x, b ∉ ptrsOf (updRefsH fuel old new a' st) x := by
            intro x
            rw [ptrsOf_updRefsH old new fuel]
            exact hni x
          rw [updRefsH_frame_fold old new fuel IH vs _ b hni'
            (fun c hc => hcs c (List.mem_cons_of_mem _ hc))]
          exact IH a' st b hni (hcs a' (List.mem_cons_self _ _))

/-- Frame property of `_update_refs_in_value`: a node that no node points
to and that is not the start of the traversal keeps its binding. -/
theorem updRefsH_frame (old new : String) :
    ∀ (fuel : Nat) (a : Nat) (st : Store) (b : Nat),
      (∀ x, b ∉ ptrsOf st x) → b ≠ a →
      hlookup (updRefsH fuel old new a st) b = hlookup st b
  | 0, _, _, _, _, _ => rfl
  | fuel + 1, a, st, b, hni, hba => by
      have IH := updRefsH_frame old new fuel
      unfold updRefsH
      split
      · -- some (.obj fs)
        next fs heq =>
        have hptrA : ptrsOf st a = nodePtrs (.obj fs) := by
          unfold ptrsOf; rw [heq]
        have hset1 : ∀ (fs' : List (String × HVal)),
            nodePtrs (HNode.obj fs') = nodePtrs (HNode.obj fs) →
            hlookup ((fs'.map (·.2)).foldl
              (fun st v =>
                match v with
                | HVal.addr a' => updRefsH fuel old new a' st
                | _ => st) (hset st a (.obj fs'))) b = hlookup st b := by
          intro fs' hnp
          have hptr1 : ∀ x, ptrsOf (hset st a (.obj fs')) x = ptrsOf st x := by
            intro x
            rw [ptrsOf_hset]
            by_cases hxa : x = a
            · subst hxa; rw [if_pos rfl, hnp, hptrA]
            · rw [if_neg hxa]
          have hni1 : ∀ x, b ∉ ptrsOf (hset st a (.obj fs')) x :=
            fun x => (hptr1 x).symm ▸ hni x
          have hcs : ∀ c, HVal.addr c ∈ fs'.map (·.2) → b ≠ c := by
            intro c hc hbc
            subst hbc
            rcases List.mem_map.mp hc with ⟨⟨k, v⟩, hkv, hv⟩
            simp only at hv
            subst hv
            exact hni a (hptrA ▸ (by
              simp only [nodePtrs] at hnp ⊢
              exact hnp ▸ mem_fieldPtrs fs' k b hkv))
          rw [updRefsH_frame_fold old new fuel IH _ _ b hni1 hcs, hlookup_hset,
            if_neg hba]
        split
        · next r hr =>
          split
          · next hcond =>
            exact hset1 _ (by
              simp only [nodePtrs]
              exact fieldPtrs_hfset_str fs "$ref" r _ hr)
          · exact hset1 fs rfl
        · exact hset1 fs rfl
      · -- some (.arr xs)
        next xs heq =>
        have hptrA : ptrsOf st a = itemPtrs xs := by
          unfold ptrsOf; rw [heq]; rfl
        have hcs : ∀ c, HVal.addr c ∈ xs → b ≠ c := by
          intro c hc hbc
          subst hbc
          exact hni a (hptrA ▸ mem_itemPtrs xs b hc)
        exact updRefsH_frame_fold old new fuel IH xs st b hni hcs
      · rfl

/-- The bounded no-inbound check (decidable over the finite store) implies
the abstract one. -/
theorem noInbound_of_pairs (st : Store) (r : Nat)
    (h : ∀ p ∈ st, r ∉ nodePtrs p.2) : ∀ a, r ∉ ptrsOf st a := by
  intro a
  unfold ptrsOf
  cases hl : hlookup st a with
  | none => simp
  | some nd => exact h (a, nd) (hlookup_mem st a nd hl)

/-- The method loop writes only to fresh operation copies and to the
copied path item `c`: every other existing binding is untouched. -/
theorem mergeMethodsH_preserves (sname base_path path : String) (c : Nat) :
    ∀ (mfs : List (String × HVal)) (st : Store) (b : Nat) (n₀ : HNode),
      hlookup st b = some n₀ → b ≠ c →
      hlookup (mergeMethodsH sname base_path path c mfs st) b = some n₀
  | [], _, _, _, hb, _ => hb
  | (method, v) :: rest, st, b, n₀, hb, hbc => by
      unfold mergeMethodsH
      by_cases hm : method ∈ httpMethods
      · rw [if_pos hm]
        split
        · next o =>
            split
            · next ofs heq =>
              dsimp only
              have hocb : ¬ freshAddr st = b := fun hh => by
                rw [← hh, hlookup_freshAddr] at hb
                cases hb
              have hb1 : hlookup ((freshAddr st,
                  HNode.obj (annotateOpH sname base_path path ofs)) :: st) b = some n₀ := by
                simp only [hlookup, if_neg hocb]
                exact hb
              split
              · next cfs heq2 =>
                exact mergeMethodsH_preserves sname base_path path c rest _ b n₀
                  (by rw [hlookup_hset, if_neg hbc]; exact hb1) hbc
              · exact mergeMethodsH_preserves sname base_path path c rest _ b n₀ hb1 hbc
            · exact mergeMethodsH_preserves sname base_path path c rest st b n₀ hb hbc
        · exact mergeMethodsH_preserves sname base_path path c rest st b n₀ hb hbc
      · rw [if_neg hm]
        exact mergeMethodsH_preserves sname base_path path c rest st b n₀ hb hbc

/-- The paths block allocates copies and mutates only those copies: every
binding that existed before — in particular the top-level node of every
loaded path item and operation — is unchanged. -/
theorem mergePathsH_preserves (sname base_path : String) :
    ∀ (pfsl : List (String × HVal)) (st : Store) (b : Nat) (n₀ : HNode),
      hlookup st b = some n₀ →
      hlookup (mergePathsH sname base_path pfsl st).2 b = some n₀
  | [], _, _, _, hb => hb
  | (path, v) :: rest, st, b, n₀, hb => by
      unfold mergePathsH
      split
      · next p =>
          split
          · next pfs heq =>
            dsimp only
            have hcb : ¬ freshAddr st = b := fun hh => by
              rw [← hh, hlookup_freshAddr] at hb
              cases hb
            have hb1 : hlookup ((freshAddr st, HNode.obj pfs) :: st) b = some n₀ := by
              simp only [hlookup, if_neg hcb]
              exact hb
            exact mergePathsH_preserves sname base_path rest _ b n₀
              (mergeMethodsH_preserves sname base_path path (freshAddr st)
                pfs _ b n₀ hb1 (fun hh => hcb hh.symm))
          · exact mergePathsH_preserves sname base_path rest st b n₀ hb
      · exact mergePathsH_preserves sname base_path rest st b n₀ hb

/-- The schema-merging step preserves the binding of every node that no
node points to: in particular the top-level node of every alias-free
loaded schema body is unchanged (only its shared descendants are). -/
theorem merge_schemasH_frame (sname : String) :
    ∀ (schemas all : List (String × HVal)) (st : Store) (r : Nat) (n₀ : HNode),
      hlookup st r = some n₀ → (∀ x, r ∉ ptrsOf st x) →
      hlookup (merge_schemasH sname all schemas st).2 r = some n₀
  | [], _, _, _, _, hr, _ => hr
  | (schema_name, sv) :: rest, all, st, r, n₀, hr, hni => by
      unfold merge_schemasH
      dsimp only
      split
      · next a =>
          split
          · next fs heq =>
            have hra : ¬ freshAddr st = r := fun hh => by
              rw [← hh, hlookup_freshAddr] at hr
              cases hr
            have hr1 : hlookup ((freshAddr st, HNode.obj fs) :: st) r = some n₀ := by
              simp only [hlookup, if_neg hra]
              exact hr
            have hni1 : ∀ x, r ∉ ptrsOf ((freshAddr st, HNode.obj fs) :: st) x := by
              intro x
              unfold ptrsOf
              simp only [hlookup]
              by_cases hx : freshAddr st = x
              · rw [if_pos hx]
                show r ∉ nodePtrs (HNode.obj fs)
                have hpa : ptrsOf st a = nodePtrs (HNode.obj fs) := by
                  unfold ptrsOf; rw [heq]
                rw [← hpa]
                exact hni a
              · rw [if_neg hx]
                exact hni x
            have hr2 : hlookup (updRefsH
                (((freshAddr st, HNode.obj fs) :: st).length + 1) schema_name
                (to_pascal_case sname ++ schema_name) (freshAddr st)
                ((freshAddr st, HNode.obj fs) :: st)) r = some n₀ := by
              rw [updRefsH_frame _ _ _ _ _ _ hni1 (fun hh => hra hh.symm)]
              exact hr1
            have hni2 : ∀ x, r ∉ ptrsOf (updRefsH
                (((freshAddr st, HNode.obj fs) :: st).length + 1) schema_name
                (to_pascal_case sname ++ schema_name) (freshAddr st)
                ((freshAddr st, HNode.obj fs) :: st)) x := by
              intro x
              rw [ptrsOf_updRefsH]
              exact hni1 x
            exact merge_schemasH_frame sname rest _ _ r n₀ hr2 hni2
          · exact merge_schemasH_frame sname rest _ st r n₀ hr hni
      · exact merge_schemasH_frame sname rest _ st r n₀ hr hni

/-- Claim C7 (counterexample): `_merge_schemas` does NOT leave the loaded
document unchanged.  `dict(schema_def)` copies only the top level, so the
copy shares nested nodes with the loaded document; `_update_refs_in_value`
then rewrites the shared node 2's `$ref` in place: after merging service
`alpha`'s self-referencing `User` schema, the loaded document's node 2
reads `#/components/schemas/AlphaUser` instead of its original
`#/components/schemas/User`. -/
theorem c7_loaded_document_mutated :
    hlookup (merge_schemasH "alpha" [] [("User", .addr 0)] loadedUserStore).2 2 =
      some (.obj [("$ref", .s "#/components/schemas/AlphaUser")]) ∧
    hlookup loadedUserStore 2 =
      some (.obj [("$ref", .s "#/components/schemas/User")]) ∧
    hlookup (merge_schemasH "alpha" [] [("User", .addr 0)] loadedUserStore).2 2 ≠
      hlookup loadedUserStore 2 := by
  exact ⟨by decide, by decide, by decide⟩

/-- Claim C7 (amended): the merge shallow-copies before modifying.
(1) The paths block copies every path item and every operation into a
fresh address and mutates only the copies, so EVERY binding of the loaded
store — in particular the top-level node of every loaded path item and
operation — is unchanged after the paths step, unconditionally.  (2) The
schema block copies each schema body with `dict(...)` before
`_update_refs_in_value` runs, so the top-level node of every loaded schema
body that no node points to (as in any alias-free YAML document) keeps its
binding through the schema step.  (3) But the copies are shallow, not
deep: nested nodes stay shared with the output, and the loaded document's
nested node 2 has its `$ref` rewritten in place — the claim's
"deep-copied, loaded documents are not modified" is false below the top
level. -/
theorem c7_shallow_copies_top_level_frame :
    (∀ (sname base_path : String) (pfsl : List (String × HVal)) (st : Store)
       (b : Nat) (n₀ : HNode), hlookup st b = some n₀ →
       hlookup (mergePathsH sname base_path pfsl st).2 b = some n₀) ∧
    (∀ (sname : String) (schemas all : List (String × HVal)) (st : Store)
       (r : Nat) (n₀ : HNode), hlookup st r = some n₀ →
       (∀ p ∈ st, r ∉ nodePtrs p.2) →
       hlookup (merge_schemasH sname all schemas st).2 r = some n₀) ∧
    hlookup (merge_schemasH "alpha" [] [("User", .addr 0)] loadedUserStore).2 2 ≠
      hlookup loadedUserStore 2 := by
  refine ⟨?_, ?_, by decide⟩
  · intro sname base_path pfsl st b n₀ hb
    exact mergePathsH_preserves sname base_path pfsl st b n₀ hb
  · intro sname schemas all st r n₀ hr hni
    exact merge_schemasH_frame sname schemas all st r n₀ hr
      (noInbound_of_pairs st r hni)

theorem c7_shallow_copies_witness :
    hlookup (mergePathsH "alpha" "/v1" [("/items", .addr 0)] opsStore).2 1 =
      some (.obj [("operationId", .s "listItems")]) ∧
    hlookup (merge_schemasH "alpha" [] [("User", .addr 0)] loadedUserStore).2 0 =
      some (.obj [("type", .s "object"), ("properties", .addr 1)]) := by
  refine ⟨?_, ?_⟩
  · exact c7_shallow_copies_top_level_frame.1 "alpha" "/v1"
      [("/items", .addr 0)] opsStore 1 _ (by decide)
  · exact c7_shallow_copies_top_level_frame.2.1 "alpha" [("User", .addr 0)] []
      loadedUserStore 0 _ (by decide) (by decide)

/-- Claim C8 (counterexample): the prefixed-name map is NOT injective for
distinct service names — service `account` with schema `ingUser` and
service `accounting` with schema `User` yield the same prefixed name
`AccountingUser`. -/
theorem c8_prefixed_names_collide :
    to_pascal_case "account" ++ "ingUser" = to_pascal_case "accounting" ++ "User" ∧
    ("account", "ingUser") ≠ (("accounting", "User") : String × String) ∧
    "account" ≠ "accounting" := by
  exact ⟨by decide, by decide, by decide⟩

/-- Claim C8 (amended): for every schema named `n` of a service `sname`
whose spec exists, the merged document's `components.schemas` contains the
key `PascalCase(sname) ++ n`; and the naming `(S, N) ↦ PascalCase(S) ++ N`
is injective provided neither involved PascalCase prefix is a proper
prefix of the other and PascalCase is injective on the involved service
names (without that proviso it is not injective, see the counterexample). -/
theorem c8_prefixing_membership_and_conditional_injectivity :
    (∀ (sub_services : SubServices) (info : Option JFields) (fs : SpecFs)
       (sname : String) (cfg : SvcCfg) (p : String)
       (spec comps schemas : JFields) (n : String) (b : JVal),
       (sname, cfg) ∈ sub_services → cfg.spec_path = some p →
       flookup fs p = some spec →
       jlookup spec "components" = some (.obj comps) →
       jlookup comps "schemas" = some (.obj schemas) →
       jlookup schemas n = some b →
       ∃ S : JFields,
         jget (merge_sub_service_specs sub_services info fs) ["components", "schemas"]
           = some (.obj S) ∧ jmem S (to_pascal_case sname ++ n) = true) ∧
    (∀ s1 n1 s2 n2 : String,
       ((to_pascal_case s1).data <+: (to_pascal_case s2).data →
         to_pascal_case s1 = to_pascal_case s2) →
       ((to_pascal_case s2).data <+: (to_pascal_case s1).data →
         to_pascal_case s2 = to_pascal_case s1) →
       (to_pascal_case s1 = to_pascal_case s2 → s1 = s2) →
       to_pascal_case s1 ++ n1 = to_pascal_case s2 ++ n2 →
       s1 = s2 ∧ n1 = n2) := by
  constructor
  · intro svcs info fs sname cfg p spec comps schemas n b hmem hp hf hc hs hn
    refine ⟨mergedSchemasOf svcs fs, merged_components_schemas svcs info fs, ?_⟩
    simp only [mergedSchemasOf]
    refine (jmem_pySortedFields _ _).mpr ?_
    refine jmem_add_error_schema_mono _ _ _ _ ?_
    rw [jmem_globalRefPass]
    exact jmem_mergeFold_self fs _ _ sname cfg p spec comps schemas n b
      (mem_sortedSubServices _ svcs hmem) hp hf hc hs hn
  · intro s1 n1 s2 n2 h12 h21 hinj h
    have hd : (to_pascal_case s1).data ++ n1.data = (to_pascal_case s2).data ++ n2.data :=
      congrArg String.data h
    rcases append_eq_append_cases _ _ _ _ hd with ⟨t, ht⟩ | ⟨t, ht⟩
    · have hpp : to_pascal_case s1 = to_pascal_case s2 := h12 ⟨t, ht.symm⟩
      refine ⟨hinj hpp, ?_⟩
      rw [hpp] at h
      exact string_eq_of_data _ _ (List.append_cancel_left (congrArg String.data h))
    · have hpp : to_pascal_case s2 = to_pascal_case s1 := h21 ⟨t, ht.symm⟩
      refine ⟨hinj hpp.symm, ?_⟩
      rw [hpp] at h
      exact string_eq_of_data _ _ (List.append_cancel_left (congrArg String.data h))

/-- Witness for C8's amended theorem: the merged `auth`/`idam` document
contains `AuthError`, and the injectivity conclusion holds at a concrete
instance. -/
theorem c8_prefixing_witness :
    (∃ S : JFields,
       jget (merge_sub_service_specs svcAuthIdam none fsError) ["components", "schemas"]
         = some (.obj S) ∧ jmem S (to_pascal_case "auth" ++ "Error") = true) ∧
    ("alpha" = "alpha" ∧ "User" = "User") :=
  ⟨c8_prefixing_membership_and_conditional_injectivity.1 svcAuthIdam none fsError
      "auth" ⟨some "/api/auth", some "auth.yaml"⟩ "auth.yaml"
      errorSchemaDoc errorCompsMap errorSchemasMap "Error" errorSchemaBody
      (by decide) rfl rfl rfl rfl rfl,
   c8_prefixing_membership_and_conditional_injectivity.2 "alpha" "User" "alpha" "User"
      (fun _ => rfl) (fun _ => rfl) (fun _ => rfl) rfl⟩

/-- Witness for C10 at a concrete input: alpha's `a.yaml` is absent from
`fsOnlyBeta`, and the merge step leaves the empty state unchanged. -/
theorem c10_missing_spec_file_skipped_witness :
    merge_one_sub_service "alpha" "/api/alpha" "a.yaml" fsOnlyBeta
        ⟨.fnil, [], .fnil, .fnil⟩ = ⟨.fnil, [], .fnil, .fnil⟩ ∧
    merge_sub_service_specs svcAlphaBeta none fsOnlyBeta =
      merge_sub_service_specs svcOnlyBeta none fsOnlyBeta :=
  c10_missing_spec_file_skipped "alpha" "/api/alpha" "a.yaml" fsOnlyBeta
    ⟨.fnil, [], .fnil, .fnil⟩ (by decide)

/-- Claim C6: for any two services with non-overlapping PascalCase
prefixes (neither prefix a prefix of the other; stated WLOG with the
names and prefixes in ascending Python order), each defining `Address`
and a `User` whose `address` property references its own `Address`, the
merged `<P1>User`'s ref resolves to `#/components/schemas/<P1>Address`
and `<P2>User`'s to `#/components/schemas/<P2>Address` — never
cross-wired to the other service's candidate. -/
theorem c6_refs_resolve_to_owning_service (s1 s2 : String)
    (h12 : ¬ (to_pascal_case s1).data <+: (to_pascal_case s2).data)
    (h21 : ¬ (to_pascal_case s2).data <+: (to_pascal_case s1).data)
    (hs : pyLt s1 s2 = true)
    (hp : pyLt (to_pascal_case s1) (to_pascal_case s2) = true) :
    jgetStr (merge_sub_service_specs (svc2 s1 s2) none fsUserAddr)
        ["components", "schemas", to_pascal_case s1 ++ "User",
         "properties", "address", "$ref"] =
      some ("#/components/schemas/" ++ (to_pascal_case s1 ++ "Address")) ∧
    jgetStr (merge_sub_service_specs (svc2 s1 s2) none fsUserAddr)
        ["components", "schemas", to_pascal_case s2 ++ "User",
         "properties", "address", "$ref"] =
      some ("#/components/schemas/" ++ (to_pascal_case s2 ++ "Address")) := by
  have hs21 : pyLt s2 s1 = false := pyLtL_asymm _ _ hs
  have hP1ne : (to_pascal_case s1).data ≠ [] := fun hh => h12 (hh ▸ List.nil_prefix)
  have hP2ne : (to_pascal_case s2).data ≠ [] := fun hh => h21 (hh ▸ List.nil_prefix)
  have hA : ∀ x : String, pyStartsWith (to_pascal_case s1 ++ x) (to_pascal_case s1) = true :=
    fun x => startsWithL_append_self _ _
  have hB : ∀ x : String, pyStartsWith (to_pascal_case s2 ++ x) (to_pascal_case s2) = true :=
    fun x => startsWithL_append_self _ _
  have hC : ∀ x : String, pyStartsWith (to_pascal_case s1 ++ x) (to_pascal_case s2) = false :=
    fun x => startsWithL_append_free _ _ _ h12 h21
  have hD : ∀ x : String, pyStartsWith (to_pascal_case s2 ++ x) (to_pascal_case s1) = false :=
    fun x => startsWithL_append_free _ _ _ h21 h12
  have hne12 : ∀ x y : String, ¬ (to_pascal_case s1 ++ x = to_pascal_case s2 ++ y) :=
    fun x y => ne_append_of_prefix_free _ _ x y h12 h21
  have hne21 : ∀ x y : String, ¬ (to_pascal_case s2 ++ x = to_pascal_case s1 ++ y) :=
    fun x y => ne_append_of_prefix_free _ _ x y h21 h12
  have hneAU1 : ¬ (to_pascal_case s1 ++ "Address" = to_pascal_case s1 ++ "User") :=
    append_right_ne _ (by decide)
  have hneUA1 : ¬ (to_pascal_case s1 ++ "User" = to_pascal_case s1 ++ "Address") :=
    append_right_ne _ (by decide)
  have hneAU2 : ¬ (to_pascal_case s2 ++ "Address" = to_pascal_case s2 ++ "User") :=
    append_right_ne _ (by decide)
  have hneUA2 : ¬ (to_pascal_case s2 ++ "User" = to_pascal_case s2 ++ "Address") :=
    append_right_ne _ (by decide)
  have hneAE1 : ¬ (to_pascal_case s1 ++ "Address" = to_pascal_case s1 ++ "Error") :=
    append_right_ne _ (by decide)
  have hneUE1 : ¬ (to_pascal_case s1 ++ "User" = to_pascal_case s1 ++ "Error") :=
    append_right_ne _ (by decide)
  have hneAE2 : ¬ (to_pascal_case s2 ++ "Address" = to_pascal_case s2 ++ "Error") :=
    append_right_ne _ (by decide)
  have hneUE2 : ¬ (to_pascal_case s2 ++ "User" = to_pascal_case s2 ++ "Error") :=
    append_right_ne _ (by decide)
  have hErrA1 : ¬ (to_pascal_case s1 ++ "Address" = "Error") :=
    append_ne_of_suffix _ _ _ (by decide)
  have hErrU1 : ¬ (to_pascal_case s1 ++ "User" = "Error") :=
    append_ne_of_suffix _ _ _ (by decide)
  have hErrA2 : ¬ (to_pascal_case s2 ++ "Address" = "Error") :=
    append_ne_of_suffix _ _ _ (by decide)
  have hErrU2 : ¬ (to_pascal_case s2 ++ "User" = "Error") :=
    append_ne_of_suffix _ _ _ (by decide)
  have hErrAl1 : ¬ ("Error" = to_pascal_case s1 ++ "Error") :=
    fun hh => (append_ne_right _ _ hP1ne) hh.symm
  have hErrAl2 : ¬ ("Error" = to_pascal_case s2 ++ "Error") :=
    fun hh => (append_ne_right _ _ hP2ne) hh.symm
  have hq1 : pyLt (to_pascal_case s2 ++ "User") (to_pascal_case s2 ++ "Address") = false := by
    show pyLtL ((to_pascal_case s2).data ++ _) ((to_pascal_case s2).data ++ _) = false
    rw [pyLtL_append_left]; decide
  have hq3 : pyLt (to_pascal_case s1 ++ "User") (to_pascal_case s1 ++ "Address") = false := by
    show pyLtL ((to_pascal_case s1).data ++ _) ((to_pascal_case s1).data ++ _) = false
    rw [pyLtL_append_left]; decide
  have hq2 : pyLt (to_pascal_case s2 ++ "Address") (to_pascal_case s1 ++ "User") = false :=
    pyLtL_asymm _ _ (pyLtL_cross _ _ _ _ h12 h21 hp)
  have hdrop1 : ∀ x : String,
      ((to_pascal_case s1 ++ x).data.drop (to_pascal_case s1).data.length).asString = x := by
    intro x
    show (((to_pascal_case s1).data ++ x.data).drop (to_pascal_case s1).data.length).asString = x
    rw [List.drop_left]; exact asString_data x
  have hdrop2 : ∀ x : String,
      ((to_pascal_case s2 ++ x).data.drop (to_pascal_case s2).data.length).asString = x := by
    intro x
    show (((to_pascal_case s2).data ++ x.data).drop (to_pascal_case s2).data.length).asString = x
    rw [List.drop_left]; exact asString_data x
  have hrepl : ∀ p : String,
      pyReplace "#/components/schemas/Address" "Address" p = "#/components/schemas/" ++ p := by
    intro p
    apply string_eq_of_data
    show (replaceGo 29 "Address".data p.data "#/components/schemas/Address".data).asString.data
      = ("#/components/schemas/" ++ p).data
    simp [replaceGo, startsWithL, List.asString]
  have hbne12 : ∀ x y : String,
      ((to_pascal_case s1 ++ x) == (to_pascal_case s2 ++ y)) = false :=
    fun x y => beq_eq_false_iff_ne.mpr (hne12 x y)
  have hbne21 : ∀ x y : String,
      ((to_pascal_case s2 ++ x) == (to_pascal_case s1 ++ y)) = false :=
    fun x y => beq_eq_false_iff_ne.mpr (hne21 x y)
  have hcs : pyContainsSub "#/components/schemas/Address" "#/components/schemas/" = true := by
    decide
  have hlast : (pySplit "#/components/schemas/Address" "#/components/schemas/").getLastD ""
      = "Address" := by decide
  simp [merge_sub_service_specs, svc2, fsUserAddr, userAddrDoc, JFields.ofList,
    sortedSubServices, insertSortedSvc,
    mergeServiceStep, merge_one_sub_service, flookup, tagsStep, pathsStep,
    schemasStep, paramsStep, merge_schemas, jfoldl, jset, jlookup, jmem, jkeys,
    updRefsV, updRefsF, updRefsL, update_refs_in_paths, update_refs_in_paths.go,
    updRefsInMethods,
    schema_name_mapping, service_prefix_for_schema, mapAppend, mlookup,
    globalRefPass, updAllV, updAllF, updAllL, rewriteRefStr,
    add_error_schema, aliasErrorLoop, defaultErrorSchema,
    pySorted, insertSorted, jlookup_pySortedFields, jgetStr, jget,
    pySplit, splitGo, startsWithL, List.getLastD, List.asString,
    List.findSome?, List.filter, List.find?, List.contains, List.elem,
    hs21, hA, hB, hC, hD, hne12, hne21, hneAU1, hneUA1, hneAU2, hneUA2,
    hneAE1, hneUE1, hneAE2, hneUE2, hErrA1, hErrU1, hErrA2, hErrU2,
    hErrAl1, hErrAl2, hq1, hq2, hq3, hdrop1, hdrop2, hrepl, hcs, hlast,
    hbne12, hbne21]

/-- Witness for C6 at the repository's own fixture: services `alpha` and
`beta`. -/
theorem c6_refs_resolve_witness :
    jgetStr (merge_sub_service_specs (svc2 "alpha" "beta") none fsUserAddr)
        ["components", "schemas", to_pascal_case "alpha" ++ "User",
         "properties", "address", "$ref"] =
      some ("#/components/schemas/" ++ (to_pascal_case "alpha" ++ "Address")) ∧
    jgetStr (merge_sub_service_specs (svc2 "alpha" "beta") none fsUserAddr)
        ["components", "schemas", to_pascal_case "beta" ++ "User",
         "properties", "address", "$ref"] =
      some ("#/components/schemas/" ++ (to_pascal_case "beta" ++ "Address")) :=
  c6_refs_resolve_to_owning_service "alpha" "beta"
    (by decide) (by decide) (by decide) (by decide)

end BffMerge
